import Mathlib

/-!
Shallow embedding of `src/keep-alive/keep-alive.js` (the Vue 2 built-in
keep-alive component): an LRU cache of component vnodes keyed by a derived
string, with include/exclude filtering, a `max` capacity bound, filter-driven
pruning and whole-cache teardown.  JS strings-or-nullish are `Option String`,
machine objects are structures, the mutable `cache` object is an
insertion-ordered association list, and exceptions raised by `$destroy`
(or by calling it on an `undefined` instance) are an explicit boolean flag.
-/

set_option maxHeartbeats 1000000

namespace KeepAlive

/-- JS truthiness of a string-or-nullish value: `undefined`, `null` and the
empty string are falsy, every other string is truthy. -/
def jsTruthy : Option String → Bool
  | none => false
  | some s => s != ""

/-- Constructor options object: only the `name` field is consulted. -/
structure CtorOptions where
  name : Option String
  deriving DecidableEq, Repr

/-- Component constructor: `cid` plus its registered options. -/
structure Ctor where
  cid : Nat
  options : CtorOptions
  deriving DecidableEq, Repr

/-- The `componentOptions` of a component vnode: the constructor and the tag. -/
structure VNodeComponentOptions where
  Ctor : Ctor
  tag : Option String
  deriving DecidableEq, Repr

/-- The `data` object of a vnode; only the `keepAlive` flag matters here. -/
structure VNodeData where
  keepAlive : Bool
  deriving DecidableEq, Repr

/-- A vnode: explicit key, tag, component options, held instance (by id;
`none` models the JS `undefined` instance before the patch phase assigns
one), and its data object. -/
structure VNode where
  key : Option String
  tag : Option String
  componentOptions : Option VNodeComponentOptions
  componentInstance : Option Nat
  data : VNodeData
  deriving DecidableEq, Repr

/-- An include/exclude pattern: an array of names, a comma-delimited string,
a regex (modelled by its decidable `test` predicate), or any other shape. -/
inductive Pattern where
  | arr (xs : List String)
  | str (s : String)
  | regex (test : String → Bool)
  | other

/-- Function `matches(pattern, name)` from keep-alive.js: array membership,
comma-split membership for strings, regex test, `false` for anything else. -/
def «matches» : Pattern → String → Bool
  | .arr xs, name => xs.contains name
  | .str s, name => (s.splitOn ",").contains name
  | .regex t, name => t name
  | .other, _ => false

/-- JS truthiness of an optional pattern value (`include`/`exclude` props):
absent and the empty string are falsy, arrays/regexes/objects are truthy. -/
def patternTruthy : Option Pattern → Bool
  | none => false
  | some (.str s) => s != ""
  | some _ => true

/-- Matching lifted to the optional pattern and optional name actually
present at the call sites (the name is always truthy when consulted). -/
def matchesOpt : Option Pattern → Option String → Bool
  | some p, some n => «matches» p n
  | _, _ => false

/-- Function `getComponentName(opts)`: `opts && (opts.Ctor.options.name || opts.tag)`.
The JS `||` falls through to the tag when the name is nullish or empty. -/
def getComponentName : Option VNodeComponentOptions → Option String
  | none => none
  | some o => if jsTruthy o.Ctor.options.name then o.Ctor.options.name else o.tag

/-- The prototype-less `cache` object: an insertion-ordered association list
from key to `?VNode`; a `none` value is a slot assigned `null` (the key is
still an own property, unlike an absent key). -/
abbrev Cache := List (String × Option VNode)

/-- Reading `cache[key]` as the JS code does: `undefined` for an absent key and
`null` for a nulled slot both collapse to `none`. -/
def cacheGet : Cache → String → Option VNode
  | [], _ => none
  | (k', v) :: rest, k => if k' = k then v else cacheGet rest k

/-- Assignment `cache[key] = v`: overwrite in place when the key is an own property,
append a new own property otherwise. -/
def cacheSet : Cache → String → Option VNode → Cache
  | [], k, v => [(k, v)]
  | (k', v') :: rest, k, v =>
    if k' = k then (k', v) :: rest else (k', v') :: cacheSet rest k v

/-- Whether `key` is an own property of the cache object (even when its
slot holds `null`); this is what `for (const key in cache)` enumerates. -/
def cacheHasKey : Cache → String → Bool
  | [], _ => false
  | (k', _) :: rest, k => if k' = k then true else cacheHasKey rest k

/-- Modelled from the spec: `remove` from shared/util (not under src/),
i.e. the Ledger `removeKey` of section 4.3 — remove the first occurrence
of `item`, a no-op when absent. -/
def removeFirst (arr : List String) (item : String) : List String :=
  arr.erase item

/-- The exemption test of `pruneCacheEntry`: the negation of
`!current || cached.tag !== current.tag` — the entry is spared destruction
when a current vnode is supplied and the tags are strictly equal. -/
def exemptFor (current : Option VNode) (cached : VNode) : Bool :=
  match current with
  | none => false
  | some cur => cached.tag == cur.tag

/-- Function `pruneCacheEntry(cache, key, keys, current?)`, instrumented with a
`throws` predicate saying which instances raise from their `$destroy`.
Faithful control flow: the destroy signal is sent first, and only if it
returns normally do `cache[key] = null` and `remove(keys, key)` execute;
a raise (including the TypeError of calling `$destroy` on an `undefined`
instance) propagates with the bookkeeping untouched.  Result:
(cache, keys, destroy signals sent, raised?). -/
def pruneCacheEntryT (throws : Nat → Bool) (cache : Cache) (key : String)
    (keys : List String) (current : Option VNode) :
    Cache × List String × List Nat × Bool :=
  match cacheGet cache key with
  | some cached =>
    if exemptFor current cached then
      (cacheSet cache key none, removeFirst keys key, [], false)
    else
      match cached.componentInstance with
      | none => (cache, keys, [], true)
      | some i =>
        if throws i then (cache, keys, [i], true)
        else (cacheSet cache key none, removeFirst keys key, [i], false)
  | none => (cacheSet cache key none, removeFirst keys key, [], false)

/-- The same `pruneCacheEntry` with a never-raising `$destroy`. -/
def pruneCacheEntry (cache : Cache) (key : String) (keys : List String)
    (current : Option VNode) : Cache × List String × List Nat × Bool :=
  pruneCacheEntryT (fun _ => false) cache key keys current

/-- The per-entry test of `pruneCache`'s loop:
`name && !filter(name)` — the entry is pruned when its component name is
truthy and fails the filter. -/
def pruneTargets (filter : String → Bool) (node : VNode) : Bool :=
  jsTruthy (getComponentName node.componentOptions) &&
  !filter ((getComponentName node.componentOptions).getD "")

/-- The `for (const key in cache)` loop body of `pruneCache`, threading the
mutable cache/keys and accumulating destroy signals; a raise inside
`pruneCacheEntry` aborts the loop and propagates.  This is the
never-raising-`$destroy` specialization of `pruneCacheGoT` below
(`pruneCacheGoT_false`). -/
def pruneCacheGo (filter : String → Bool) (current : Option VNode) :
    List String → Cache → List String → List Nat →
    Cache × List String × List Nat × Bool
  | [], cache, keys, acc => (cache, keys, acc, false)
  | k :: rest, cache, keys, acc =>
    match cacheGet cache k with
    | some node =>
      if pruneTargets filter node then
        match pruneCacheEntryT (fun _ => false) cache k keys current with
        | (c2, ks2, d, true) => (c2, ks2, acc ++ d, true)
        | (c2, ks2, d, false) => pruneCacheGo filter current rest c2 ks2 (acc ++ d)
      else pruneCacheGo filter current rest cache keys acc
    | none => pruneCacheGo filter current rest cache keys acc

/-- Function `pruneCache(keepAliveInstance, filter)`: scan every own property of the
cache object and prune each live entry whose (truthy) name fails the
filter, passing the instance's `_vnode` as the `current` exemption. -/
def pruneCache (cache : Cache) (keys : List String) (current : Option VNode)
    (filter : String → Bool) : Cache × List String × List Nat × Bool :=
  pruneCacheGo filter current (cache.map Prod.fst) cache keys []

/-- The `destroyed()` hook loop body: prune every own property of the cache
with no `current` exemption.  This is the never-raising-`$destroy`
specialization of `destroyedGoT` below (`destroyedGoT_false`). -/
def destroyedGo : List String → Cache → List String → List Nat →
    Cache × List String × List Nat × Bool
  | [], cache, keys, acc => (cache, keys, acc, false)
  | k :: rest, cache, keys, acc =>
    match pruneCacheEntryT (fun _ => false) cache k keys none with
    | (c2, ks2, d, true) => (c2, ks2, acc ++ d, true)
    | (c2, ks2, d, false) => destroyedGo rest c2 ks2 (acc ++ d)

/-- The `destroyed()` hook: tear down every cached entry. -/
def destroyedHook (cache : Cache) (keys : List String) :
    Cache × List String × List Nat × Bool :=
  destroyedGo (cache.map Prod.fst) cache keys []

/-- The `max` prop: a JS number or string (`max: [String, Number]`), or
absent. -/
inductive MaxProp where
  | num (n : Int)
  | str (s : String)
  | absent

/-- Value of a list of decimal digit characters. -/
def digitsToNat (ds : List Char) : Nat :=
  ds.foldl (fun a c => a * 10 + (c.toNat - 48)) 0

/-- Leading decimal-digit run of a character list; `none` when empty. -/
def parseDigits (cs : List Char) : Option Nat :=
  let ds := cs.takeWhile Char.isDigit
  if ds.isEmpty then none else some (digitsToNat ds)

/-- JS `parseInt` on a string, restricted to radix-10 inputs (no `0x`
prefix occurs in scope): skip leading whitespace, optional sign, parse the
leading digit run; `none` models `NaN`. -/
def jsParseInt (s : String) : Option Int :=
  match s.toList.dropWhile Char.isWhitespace with
  | '-' :: rest => (parseDigits rest).map (fun n => -(n : Int))
  | '+' :: rest => (parseDigits rest).map (fun n => (n : Int))
  | cs => (parseDigits cs).map (fun n => (n : Int))

/-- JS truthiness of `this.max`: the number 0 and the empty string are
falsy, every other number or string is truthy, absent is falsy. -/
def maxTruthy : MaxProp → Bool
  | .num n => n != 0
  | .str s => s != ""
  | .absent => false

/-- Evaluation of `parseInt(this.max)`: numbers pass through, strings are parsed,
`none` models `NaN`. -/
def maxParseInt : MaxProp → Option Int
  | .num n => some n
  | .str s => jsParseInt s
  | .absent => none

/-- The guard `this.max && keys.length > parseInt(this.max)`: a comparison against
`NaN` is false. -/
def overLimit (max : MaxProp) (len : Nat) : Bool :=
  maxTruthy max && (match maxParseInt max with
    | none => false
    | some m => (len : Int) > m)

/-- Key derivation from `render()`: the explicit `vnode.key` verbatim when
not nullish, otherwise `Ctor.cid + (tag ? "::" + tag : "")`. -/
def deriveKey (v : VNode) (co : VNodeComponentOptions) : String :=
  match v.key with
  | some k => k
  | none =>
    toString co.Ctor.cid ++ (match co.tag with
      | some t => if t = "" then "" else "::" ++ t
      | none => "")

/-- The early-return condition of `render()`:
`(include && (!name || !matches(include, name))) ||
 (exclude && name && matches(exclude, name))`. -/
def earlyReject (inc exc : Option Pattern) (name : Option String) : Bool :=
  (patternTruthy inc && (!jsTruthy name || !matchesOpt inc name)) ||
  (patternTruthy exc && jsTruthy name && matchesOpt exc name)

/-- Observable outcome of one `render()` call: final cache and keys, the
destroy signals sent, whether an exception propagated out of the call,
the returned vnode (meaningless when `raised`), and — instrumentation for
the driver — the key inserted when the miss branch ran. -/
structure RenderOut where
  cache : Cache
  keys : List String
  destroyed : List Nat
  raised : Bool
  returned : Option VNode
  missedKey : Option String
  deriving DecidableEq, Repr

/-- The hit branch of `render()`: the returned vnode reuses the cached
instance, the key is moved to the tail of `keys`
(`remove(keys, key); keys.push(key)`), and `vnode.data.keepAlive = true`. -/
def renderHit (cache : Cache) (keys : List String) (v cached : VNode)
    (key : String) : RenderOut :=
  ⟨cache, removeFirst keys key ++ [key], [], false,
    some { v with componentInstance := cached.componentInstance,
                  data := { keepAlive := true } }, none⟩

/-- The miss branch of `render()`: `cache[key] = vnode; keys.push(key)`,
then if `this.max && keys.length > parseInt(this.max)` the entry at
`keys[0]` is pruned with the `_vnode` exemption.  A raise from that prune
propagates before `vnode.data.keepAlive = true` runs; otherwise the flag
is set and, the cache slot being an alias of the vnode, mirrored there
when the slot is still live.  This is the never-raising-`$destroy`
specialization of `renderMissT` below (`renderMissT_false`). -/
def renderMiss (max : MaxProp) (cache : Cache) (keys : List String)
    (uvnode : Option VNode) (v : VNode) (key : String) : RenderOut :=
  let cache1 := cacheSet cache key (some v)
  let keys1 := keys ++ [key]
  if overLimit max keys1.length then
    match pruneCacheEntryT (fun _ => false) cache1 (keys1.headD "") keys1 uvnode with
    | (cache2, keys2, des, true) => ⟨cache2, keys2, des, true, none, some key⟩
    | (cache2, keys2, des, false) =>
      let v2 := { v with data := { keepAlive := true } }
      ⟨(if (cacheGet cache2 key).isSome then cacheSet cache2 key (some v2) else cache2),
        keys2, des, false, some v2, some key⟩
  else
    let v2 := { v with data := { keepAlive := true } }
    ⟨cacheSet cache1 key (some v2), keys1, [], false, some v2, some key⟩

/-- Function `render()`: the per-cycle cache controller.  `vnode` is the result of
`getFirstComponentChild(slot)` (supplied by the external rendering engine),
`uvnode` is `this._vnode`, `slot0` is `slot && slot[0]`.  After the
include/exclude early return, the derived key selects the hit or miss
branch. -/
def render (inc exc : Option Pattern) (max : MaxProp) (cache : Cache)
    (keys : List String) (uvnode : Option VNode) (vnode : Option VNode)
    (slot0 : Option VNode) : RenderOut :=
  match vnode with
  | none => ⟨cache, keys, [], false, slot0, none⟩
  | some v =>
    match v.componentOptions with
    | none => ⟨cache, keys, [], false, some v, none⟩
    | some co =>
      if earlyReject inc exc (getComponentName (some co)) then
        ⟨cache, keys, [], false, some v, none⟩
      else
        match cacheGet cache (deriveKey v co) with
        | some cached => renderHit cache keys v cached (deriveKey v co)
        | none => renderMiss max cache keys uvnode v (deriveKey v co)

/-- The cacheability predicate as the specification words it (section 4.1):
cacheable iff (`include` absent OR the name is present and matches
`include`) AND NOT (`exclude` present AND the name is present and matches
`exclude`), where presence of a name or pattern is JS truthiness. -/
def cacheableSpec (name : Option String) (inc exc : Option Pattern) : Bool :=
  (!patternTruthy inc || (jsTruthy name && matchesOpt inc name)) &&
  !(patternTruthy exc && jsTruthy name && matchesOpt exc name)

/-- Driver state for sequences of host operations: the component's `cache`
and `keys` plus a fresh-instance counter standing for the external
instantiation collaborator. -/
structure DrvState where
  cache : Cache
  keys : List String
  nextId : Nat
  deriving DecidableEq, Repr

/-- The `created()` hook: empty cache, empty keys. -/
def initState : DrvState := ⟨[], [], 0⟩

/-- One host-driven operation: a render cycle (with the props and the
currently rendering `_vnode` in effect for that cycle), an include- or
exclude-watcher firing, or the `destroyed()` teardown. -/
inductive Op where
  | cycle (inc exc : Option Pattern) (uvnode : Option VNode) (vnode : Option VNode)
  | pruneInc (val : Pattern) (uvnode : Option VNode)
  | pruneExc (val : Pattern) (uvnode : Option VNode)
  | teardown

/-- Render-phase vnodes arrive from the host with no instance attached
(the patch phase assigns one later). -/
def scrub : Option VNode → Option VNode
  | none => none
  | some v => some { v with componentInstance := none }

/-- Execute one operation.  After a completed miss the external
instantiation collaborator constructs a fresh instance and the patch phase
stores it on the cached vnode; a cycle that raised gets no instance. -/
def stepOp (max : MaxProp) (s : DrvState) : Op → DrvState × List Nat
  | .cycle inc exc uv v0 =>
    let out := render inc exc max s.cache s.keys uv (scrub v0) none
    match out.missedKey, out.raised with
    | some k, false =>
      (match cacheGet out.cache k with
       | some cv =>
         (match cv.componentInstance with
          | none =>
            (⟨cacheSet out.cache k (some { cv with componentInstance := some s.nextId }),
              out.keys, s.nextId + 1⟩, out.destroyed)
          | some _ => (⟨out.cache, out.keys, s.nextId⟩, out.destroyed))
       | none => (⟨out.cache, out.keys, s.nextId⟩, out.destroyed))
    | _, _ => (⟨out.cache, out.keys, s.nextId⟩, out.destroyed)
  | .pruneInc val uv =>
    match pruneCache s.cache s.keys uv (fun n => «matches» val n) with
    | (c, ks, d, _) => (⟨c, ks, s.nextId⟩, d)
  | .pruneExc val uv =>
    match pruneCache s.cache s.keys uv (fun n => !«matches» val n) with
    | (c, ks, d, _) => (⟨c, ks, s.nextId⟩, d)
  | .teardown =>
    match destroyedHook s.cache s.keys with
    | (c, ks, d, _) => (⟨c, ks, s.nextId⟩, d)

/-- Run a sequence of operations, accumulating all destroy signals. -/
def runOps (max : MaxProp) : DrvState → List Op → DrvState × List Nat
  | s, [] => (s, [])
  | s, op :: rest =>
    match stepOp max s op with
    | (s1, d) =>
      match runOps max s1 rest with
      | (s2, d2) => (s2, d ++ d2)

/-- Whether a render cycle from state `s` would take the miss branch. -/
def cycleMissed (max : MaxProp) (s : DrvState) (inc exc : Option Pattern)
    (uv v0 : Option VNode) : Bool :=
  (render inc exc max s.cache s.keys uv (scrub v0) none).missedKey.isSome

/-! ### The raising-destroy environment

`renderMiss`, `pruneCacheGo` and `destroyedGo` above run every
`pruneCacheEntry` call with a never-raising `$destroy`.  The definitions
below are the same controller in an environment where the `$destroy` of
the instances selected by a `throws` predicate raises, with the source's
control flow: a raise propagates out of the enclosing call, aborting
whatever work remained.  Each benign definition is the `fun _ => false`
specialization of its raising form (proved below). -/

/-- The miss branch of `render()` in an environment where a `$destroy` may
raise: identical to `renderMiss` except that the eviction's
`pruneCacheEntry` call runs with the given `throws` predicate. -/
def renderMissT (throws : Nat → Bool) (max : MaxProp) (cache : Cache)
    (keys : List String) (uvnode : Option VNode) (v : VNode) (key : String) :
    RenderOut :=
  let cache1 := cacheSet cache key (some v)
  let keys1 := keys ++ [key]
  if overLimit max keys1.length then
    match pruneCacheEntryT throws cache1 (keys1.headD "") keys1 uvnode with
    | (cache2, keys2, des, true) => ⟨cache2, keys2, des, true, none, some key⟩
    | (cache2, keys2, des, false) =>
      let v2 := { v with data := { keepAlive := true } }
      ⟨(if (cacheGet cache2 key).isSome then cacheSet cache2 key (some v2) else cache2),
        keys2, des, false, some v2, some key⟩
  else
    let v2 := { v with data := { keepAlive := true } }
    ⟨cacheSet cache1 key (some v2), keys1, [], false, some v2, some key⟩

/-- Function `render()` in an environment where a `$destroy` may raise. -/
def renderT (throws : Nat → Bool) (inc exc : Option Pattern) (max : MaxProp)
    (cache : Cache) (keys : List String) (uvnode : Option VNode)
    (vnode : Option VNode) (slot0 : Option VNode) : RenderOut :=
  match vnode with
  | none => ⟨cache, keys, [], false, slot0, none⟩
  | some v =>
    match v.componentOptions with
    | none => ⟨cache, keys, [], false, some v, none⟩
    | some co =>
      if earlyReject inc exc (getComponentName (some co)) then
        ⟨cache, keys, [], false, some v, none⟩
      else
        match cacheGet cache (deriveKey v co) with
        | some cached => renderHit cache keys v cached (deriveKey v co)
        | none => renderMissT throws max cache keys uvnode v (deriveKey v co)

/-- The `pruneCache` loop body in an environment where a `$destroy` may
raise: a raise aborts the remaining iterations and propagates. -/
def pruneCacheGoT (throws : Nat → Bool) (filter : String → Bool)
    (current : Option VNode) :
    List String → Cache → List String → List Nat →
    Cache × List String × List Nat × Bool
  | [], cache, keys, acc => (cache, keys, acc, false)
  | k :: rest, cache, keys, acc =>
    match cacheGet cache k with
    | some node =>
      if pruneTargets filter node then
        match pruneCacheEntryT throws cache k keys current with
        | (c2, ks2, d, true) => (c2, ks2, acc ++ d, true)
        | (c2, ks2, d, false) => pruneCacheGoT throws filter current rest c2 ks2 (acc ++ d)
      else pruneCacheGoT throws filter current rest cache keys acc
    | none => pruneCacheGoT throws filter current rest cache keys acc

/-- Function `pruneCache` in an environment where a `$destroy` may raise. -/
def pruneCacheT (throws : Nat → Bool) (cache : Cache) (keys : List String)
    (current : Option VNode) (filter : String → Bool) :
    Cache × List String × List Nat × Bool :=
  pruneCacheGoT throws filter current (cache.map Prod.fst) cache keys []

/-- The `destroyed()` hook loop body in an environment where a `$destroy`
may raise: a raise aborts the remaining iterations and propagates. -/
def destroyedGoT (throws : Nat → Bool) :
    List String → Cache → List String → List Nat →
    Cache × List String × List Nat × Bool
  | [], cache, keys, acc => (cache, keys, acc, false)
  | k :: rest, cache, keys, acc =>
    match pruneCacheEntryT throws cache k keys none with
    | (c2, ks2, d, true) => (c2, ks2, acc ++ d, true)
    | (c2, ks2, d, false) => destroyedGoT throws rest c2 ks2 (acc ++ d)

/-- The `destroyed()` hook in an environment where a `$destroy` may raise. -/
def destroyedHookT (throws : Nat → Bool) (cache : Cache) (keys : List String) :
    Cache × List String × List Nat × Bool :=
  destroyedGoT throws (cache.map Prod.fst) cache keys []

/-- Execute one operation in an environment where the `$destroy` of the
instances selected by `throws` raises. -/
def stepOpT (throws : Nat → Bool) (max : MaxProp) (s : DrvState) :
    Op → DrvState × List Nat
  | .cycle inc exc uv v0 =>
    let out := renderT throws inc exc max s.cache s.keys uv (scrub v0) none
    match out.missedKey, out.raised with
    | some k, false =>
      (match cacheGet out.cache k with
       | some cv =>
         (match cv.componentInstance with
          | none =>
            (⟨cacheSet out.cache k (some { cv with componentInstance := some s.nextId }),
              out.keys, s.nextId + 1⟩, out.destroyed)
          | some _ => (⟨out.cache, out.keys, s.nextId⟩, out.destroyed))
       | none => (⟨out.cache, out.keys, s.nextId⟩, out.destroyed))
    | _, _ => (⟨out.cache, out.keys, s.nextId⟩, out.destroyed)
  | .pruneInc val uv =>
    match pruneCacheT throws s.cache s.keys uv (fun n => «matches» val n) with
    | (c, ks, d, _) => (⟨c, ks, s.nextId⟩, d)
  | .pruneExc val uv =>
    match pruneCacheT throws s.cache s.keys uv (fun n => !«matches» val n) with
    | (c, ks, d, _) => (⟨c, ks, s.nextId⟩, d)
  | .teardown =>
    match destroyedHookT throws s.cache s.keys with
    | (c, ks, d, _) => (⟨c, ks, s.nextId⟩, d)

/-- Run a sequence of operations in the raising environment. -/
def runOpsT (throws : Nat → Bool) (max : MaxProp) :
    DrvState → List Op → DrvState × List Nat
  | s, [] => (s, [])
  | s, op :: rest =>
    match stepOpT throws max s op with
    | (s1, d) =>
      match runOpsT throws max s1 rest with
      | (s2, d2) => (s2, d ++ d2)

/-- Whether a render cycle from `s` in the raising environment takes the
miss branch. -/
def cycleMissedT (throws : Nat → Bool) (max : MaxProp) (s : DrvState)
    (inc exc : Option Pattern) (uv v0 : Option VNode) : Bool :=
  (renderT throws inc exc max s.cache s.keys uv (scrub v0) none).missedKey.isSome

/-- The destroy environment in which instance 0's `$destroy` raises. -/
def throwsZero : Nat → Bool := fun i => i == 0

/-! ### Cache algebra -/

theorem cacheGet_cacheSet (c : Cache) (k k' : String) (v : Option VNode) :
    cacheGet (cacheSet c k v) k' = if k' = k then v else cacheGet c k' := by
  induction c with
  | nil =>
    by_cases h : k' = k
    · subst h; simp [cacheSet, cacheGet]
    · simp [cacheSet, cacheGet, h, Ne.symm h]
  | cons p tl ih =>
    obtain ⟨k1, v1⟩ := p
    by_cases h1 : k1 = k
    · subst h1
      by_cases h2 : k' = k1
      · subst h2; simp [cacheSet, cacheGet]
      · simp [cacheSet, cacheGet, h2, Ne.symm h2]
    · by_cases h2 : k1 = k'
      · subst h2
        simp [cacheSet, cacheGet, h1, Ne.symm h1]
      · simp [cacheSet, cacheGet, h1, h2, ih]

theorem cacheHasKey_cacheSet (c : Cache) (k : String) (v : Option VNode) :
    cacheHasKey (cacheSet c k v) k = true := by
  induction c with
  | nil => simp [cacheSet, cacheHasKey]
  | cons p tl ih =>
    obtain ⟨k1, v1⟩ := p
    by_cases h : k1 = k <;> simp [cacheSet, cacheHasKey, h, ih]

theorem mem_map_fst_of_cacheGet {c : Cache} {k : String} {v : VNode}
    (h : cacheGet c k = some v) : k ∈ c.map Prod.fst := by
  induction c with
  | nil => simp [cacheGet] at h
  | cons p tl ih =>
    obtain ⟨k1, v1⟩ := p
    by_cases h1 : k1 = k
    · subst h1; simp
    · rw [cacheGet, if_neg h1] at h
      simpa using Or.inr (ih h)

/-! ### Shapes of a single entry prune -/

theorem pruneCacheEntryT_shape (t : Nat → Bool) (c : Cache) (key : String)
    (ks : List String) (cur : Option VNode) :
    (∃ d, pruneCacheEntryT t c key ks cur = (cacheSet c key none, ks.erase key, d, false)) ∨
    (∃ d, pruneCacheEntryT t c key ks cur = (c, ks, d, true)) := by
  unfold pruneCacheEntryT removeFirst
  split
  · split
    · exact Or.inl ⟨[], rfl⟩
    · split
      · exact Or.inr ⟨[], rfl⟩
      · split
        · exact Or.inr ⟨_, rfl⟩
        · exact Or.inl ⟨_, rfl⟩
  · exact Or.inl ⟨[], rfl⟩

theorem pruneCacheEntry_noraise {c : Cache} {key : String} (ks : List String)
    (cur : Option VNode)
    (h : ∀ v, cacheGet c key = some v → v.componentInstance.isSome) :
    (pruneCacheEntry c key ks cur).2.2.2 = false := by
  unfold pruneCacheEntry pruneCacheEntryT
  cases hget : cacheGet c key with
  | none => rfl
  | some cached =>
    have hi := h cached hget
    cases hins : cached.componentInstance with
    | none => rw [hins] at hi; simp at hi
    | some i => simp [hins]; split <;> rfl

theorem pruneCacheEntry_destroys (c : Cache) (key : String) (ks : List String)
    (cur : Option VNode) :
    (pruneCacheEntry c key ks cur).2.2.1 = [] ∨
    ∃ v i, cacheGet c key = some v ∧ v.componentInstance = some i ∧
      exemptFor cur v = false ∧
      pruneCacheEntry c key ks cur = (cacheSet c key none, ks.erase key, [i], false) := by
  unfold pruneCacheEntry pruneCacheEntryT removeFirst
  cases hget : cacheGet c key with
  | none => exact Or.inl rfl
  | some cached =>
    cases hex : exemptFor cur cached with
    | true => simp [hex]
    | false =>
      cases hins : cached.componentInstance with
      | none => simp [hex, hins]
      | some i =>
        exact Or.inr ⟨cached, i, rfl, hins, hex, by simp [hex, hins]⟩

/-! ### The Store/Ledger bijection invariant -/

/-- Bijection invariant: the keys list has no duplicates and holds exactly
the keys with a live (non-null) cache entry. -/
def InvB (cache : Cache) (keys : List String) : Prop :=
  keys.Nodup ∧ ∀ k, k ∈ keys ↔ (cacheGet cache k).isSome

theorem InvB_remove {c : Cache} {ks : List String} (h : InvB c ks) (key : String) :
    InvB (cacheSet c key none) (ks.erase key) := by
  obtain ⟨hnd, hmem⟩ := h
  refine ⟨hnd.erase key, fun k => ?_⟩
  rw [hnd.mem_erase_iff, cacheGet_cacheSet]
  by_cases hk : k = key
  · simp [hk]
  · simp [hk, hmem k]

theorem InvB_pruneEntryT {c : Cache} {ks : List String} (t : Nat → Bool)
    (key : String) (cur : Option VNode) (h : InvB c ks) :
    InvB (pruneCacheEntryT t c key ks cur).1 (pruneCacheEntryT t c key ks cur).2.1 := by
  rcases pruneCacheEntryT_shape t c key ks cur with ⟨d, hd⟩ | ⟨d, hd⟩
  · rw [hd]; exact InvB_remove h key
  · rw [hd]; exact h

theorem InvB_setLive {c : Cache} {ks : List String} (h : InvB c ks)
    {key : String} (hk : (cacheGet c key).isSome) (v : VNode) :
    InvB (cacheSet c key (some v)) ks := by
  obtain ⟨hnd, hmem⟩ := h
  refine ⟨hnd, fun k => ?_⟩
  rw [cacheGet_cacheSet]
  by_cases e : k = key
  · subst e; simp [hmem k, hk]
  · simp [e, hmem k]

theorem InvB_insert {c : Cache} {ks : List String} (h : InvB c ks)
    {key : String} (hk : cacheGet c key = none) (v : VNode) :
    InvB (cacheSet c key (some v)) (ks ++ [key]) := by
  obtain ⟨hnd, hmem⟩ := h
  have hkey : key ∉ ks := by rw [hmem key, hk]; simp
  constructor
  · simpa [List.nodup_append, hnd] using hkey
  · intro k
    rw [cacheGet_cacheSet]
    by_cases e : k = key
    · subst e; simp
    · simp [e, hmem k]

theorem InvB_touch {c : Cache} {ks : List String} (h : InvB c ks)
    {key : String} (hk : (cacheGet c key).isSome) :
    InvB c (ks.erase key ++ [key]) := by
  obtain ⟨hnd, hmem⟩ := h
  have hkey : key ∈ ks := (hmem key).mpr hk
  have hperm : (ks.erase key ++ [key]).Perm ks :=
    (List.perm_append_singleton key (ks.erase key)).trans
      (List.perm_cons_erase hkey).symm
  exact ⟨hperm.nodup_iff.mpr hnd, fun k => by rw [hperm.mem_iff]; exact hmem k⟩

/-! ### Bijection through render and the driver -/

theorem InvB_renderMiss {c : Cache} {ks : List String} (max : MaxProp)
    (uv : Option VNode) (v : VNode) {key : String}
    (h : InvB c ks) (hk : cacheGet c key = none) :
    InvB (renderMiss max c ks uv v key).cache (renderMiss max c ks uv v key).keys := by
  have h1 : InvB (cacheSet c key (some v)) (ks ++ [key]) := InvB_insert h hk v
  simp only [renderMiss]
  by_cases hov : overLimit max (ks ++ [key]).length = true
  · rw [if_pos hov]
    have h2 := InvB_pruneEntryT (fun _ => false) ((ks ++ [key]).headD "") uv h1
    rcases pruneCacheEntryT_shape (fun _ => false) (cacheSet c key (some v))
        ((ks ++ [key]).headD "") (ks ++ [key]) uv with ⟨d, hd⟩ | ⟨d, hd⟩
    · rw [hd] at h2 ⊢
      dsimp only at h2 ⊢
      by_cases hs : (cacheGet (cacheSet (cacheSet c key (some v))
          ((ks ++ [key]).headD "") none) key).isSome = true
      · rw [if_pos hs]
        exact InvB_setLive h2 hs _
      · rw [if_neg hs]
        exact h2
    · rw [hd] at h2 ⊢
      exact h2
  · rw [if_neg hov]
    exact InvB_setLive h1 (by rw [cacheGet_cacheSet]; simp) _

theorem InvB_render (inc exc : Option Pattern) (max : MaxProp) {c : Cache}
    {ks : List String} (uv vnode slot0 : Option VNode) (h : InvB c ks) :
    InvB (render inc exc max c ks uv vnode slot0).cache
         (render inc exc max c ks uv vnode slot0).keys := by
  cases vnode with
  | none => unfold render; exact h
  | some v =>
    unfold render
    dsimp only
    cases hco : v.componentOptions with
    | none => exact h
    | some co =>
      dsimp only
      by_cases hrej : earlyReject inc exc (getComponentName (some co)) = true
      · rw [if_pos hrej]
        exact h
      · rw [if_neg hrej]
        cases hget : cacheGet c (deriveKey v co) with
        | some cached =>
          dsimp only
          simp only [renderHit, removeFirst]
          exact InvB_touch h (by rw [hget]; rfl)
        | none =>
          dsimp only
          exact InvB_renderMiss max uv v h hget

theorem InvB_pruneCacheGo (f : String → Bool) (cur : Option VNode) :
    ∀ (todo : List String) (cache : Cache) (keys : List String) (acc : List Nat),
      InvB cache keys →
      InvB (pruneCacheGo f cur todo cache keys acc).1
           (pruneCacheGo f cur todo cache keys acc).2.1 := by
  intro todo
  induction todo with
  | nil => intro cache keys acc hh; simpa only [pruneCacheGo] using hh
  | cons k rest ih =>
    intro cache keys acc hh
    simp only [pruneCacheGo]
    cases hget : cacheGet cache k with
    | none => dsimp only; exact ih cache keys acc hh
    | some node =>
      dsimp only
      by_cases hpt : pruneTargets f node = true
      · rw [if_pos hpt]
        have h2 := InvB_pruneEntryT (fun _ => false) k cur hh
        rcases pruneCacheEntryT_shape (fun _ => false) cache k keys cur with
          ⟨d, hd⟩ | ⟨d, hd⟩
        · rw [hd] at h2 ⊢
          dsimp only at h2 ⊢
          exact ih _ _ _ h2
        · rw [hd] at h2 ⊢
          dsimp only at h2 ⊢
          exact h2
      · rw [if_neg hpt]
        exact ih cache keys acc hh

theorem InvB_destroyedGo :
    ∀ (todo : List String) (cache : Cache) (keys : List String) (acc : List Nat),
      InvB cache keys →
      InvB (destroyedGo todo cache keys acc).1 (destroyedGo todo cache keys acc).2.1 := by
  intro todo
  induction todo with
  | nil => intro cache keys acc hh; simpa only [destroyedGo] using hh
  | cons k rest ih =>
    intro cache keys acc hh
    simp only [destroyedGo]
    have h2 := InvB_pruneEntryT (fun _ => false) k (none : Option VNode) hh
    rcases pruneCacheEntryT_shape (fun _ => false) cache k keys none with
      ⟨d, hd⟩ | ⟨d, hd⟩
    · rw [hd] at h2 ⊢
      dsimp only at h2 ⊢
      exact ih _ _ _ h2
    · rw [hd] at h2 ⊢
      dsimp only at h2 ⊢
      exact h2

theorem InvB_stepOp (max : MaxProp) (s : DrvState) (op : Op)
    (h : InvB s.cache s.keys) :
    InvB (stepOp max s op).1.cache (stepOp max s op).1.keys := by
  cases op with
  | cycle inc exc uv v0 =>
    have hr := InvB_render inc exc max uv (scrub v0) none h
    simp only [stepOp]
    cases hmk : (render inc exc max s.cache s.keys uv (scrub v0) none).missedKey with
    | none =>
      cases (render inc exc max s.cache s.keys uv (scrub v0) none).raised <;>
        (dsimp only; exact hr)
    | some k =>
      cases hrz : (render inc exc max s.cache s.keys uv (scrub v0) none).raised with
      | true => dsimp only; exact hr
      | false =>
        dsimp only
        cases hcv : cacheGet (render inc exc max s.cache s.keys uv (scrub v0) none).cache k with
        | none => dsimp only; exact hr
        | some cv =>
          dsimp only
          cases cv.componentInstance with
          | none =>
            dsimp only
            exact InvB_setLive hr (by rw [hcv]; rfl) _
          | some j => dsimp only; exact hr
  | pruneInc val uv =>
    simp only [stepOp]
    exact InvB_pruneCacheGo _ uv _ s.cache s.keys [] h
  | pruneExc val uv =>
    simp only [stepOp]
    exact InvB_pruneCacheGo _ uv _ s.cache s.keys [] h
  | teardown =>
    simp only [stepOp]
    exact InvB_destroyedGo _ s.cache s.keys [] h

theorem InvB_runOps (max : MaxProp) (s : DrvState) (ops : List Op)
    (h : InvB s.cache s.keys) :
    InvB (runOps max s ops).1.cache (runOps max s ops).1.keys := by
  induction ops generalizing s with
  | nil => exact h
  | cons op rest ih => exact ih _ (InvB_stepOp max s op h)

/-- C7: in every state reachable by any sequence of render cycles,
filter-change prunes, and teardown, the set of keys in the Recency Ledger
(the keys array, duplicate-free) equals the set of keys mapped to a live
(non-null) entry in the Entry Store (the cache object). -/
theorem C7_bijection (max : MaxProp) (ops : List Op) :
    (runOps max initState ops).1.keys.Nodup ∧
    ∀ k, k ∈ (runOps max initState ops).1.keys ↔
      (cacheGet (runOps max initState ops).1.cache k).isSome := by
  have h0 : InvB initState.cache initState.keys := by
    constructor
    · exact List.nodup_nil
    · intro k; simp [initState, cacheGet]
  exact InvB_runOps max initState ops h0

/-! ### At-most-once destroy: instance bookkeeping invariant -/

/-- The instance held by the live entry at `k`, when there is one. -/
def liveInst (c : Cache) (k : String) : Option Nat :=
  match cacheGet c k with
  | some v => v.componentInstance
  | none => none

/-- Destroy-signal bookkeeping invariant for the driver: the already-sent
signals `a` are pairwise distinct fresh-counter values below `n`, every
live instance is below `n` and has not been signalled, and no two live
entries share an instance. -/
def EntryInv (c : Cache) (n : Nat) (a : List Nat) : Prop :=
  a.Nodup ∧ (∀ i ∈ a, i < n) ∧
  (∀ k i, liveInst c k = some i → i < n ∧ i ∉ a) ∧
  (∀ k1 k2 i, liveInst c k1 = some i → liveInst c k2 = some i → k1 = k2)

theorem liveInst_cacheSet_none (c : Cache) (key k : String) :
    liveInst (cacheSet c key none) k = if k = key then none else liveInst c k := by
  unfold liveInst
  rw [cacheGet_cacheSet]
  by_cases h : k = key <;> simp [h]

theorem liveInst_cacheSet_noinst (c : Cache) (key k : String) {v : VNode}
    (hv : v.componentInstance = none) :
    liveInst (cacheSet c key (some v)) k = if k = key then none else liveInst c k := by
  unfold liveInst
  rw [cacheGet_cacheSet]
  by_cases h : k = key <;> simp [h, hv]

theorem EntryInv_shrink {c c2 : Cache} {n : Nat} {a : List Nat}
    (hsub : ∀ k, liveInst c2 k = liveInst c k ∨ liveInst c2 k = none)
    (h : EntryInv c n a) : EntryInv c2 n a := by
  obtain ⟨h1, h2, h3, h4⟩ := h
  refine ⟨h1, h2, ?_, ?_⟩
  · intro k i hk
    rcases hsub k with hs | hs
    · exact h3 k i (hs ▸ hk)
    · rw [hs] at hk; cases hk
  · intro k1 k2 i hk1 hk2
    rcases hsub k1 with hs1 | hs1
    · rcases hsub k2 with hs2 | hs2
      · exact h4 k1 k2 i (hs1 ▸ hk1) (hs2 ▸ hk2)
      · rw [hs2] at hk2; cases hk2
    · rw [hs1] at hk1; cases hk1

theorem EntryInv_destroy {c : Cache} {n : Nat} {a : List Nat} {key : String}
    {i : Nat} (h : EntryInv c n a) (hk : liveInst c key = some i) :
    EntryInv (cacheSet c key none) n (a ++ [i]) := by
  obtain ⟨h1, h2, h3, h4⟩ := h
  obtain ⟨hin, hia⟩ := h3 key i hk
  refine ⟨?_, ?_, ?_, ?_⟩
  · simp [List.nodup_append, h1, hia]
  · intro j hj
    rcases List.mem_append.mp hj with hj | hj
    · exact h2 j hj
    · simp at hj; omega
  · intro k j hkj
    rw [liveInst_cacheSet_none] at hkj
    by_cases e : k = key
    · rw [if_pos e] at hkj; cases hkj
    · rw [if_neg e] at hkj
      obtain ⟨hjn, hja⟩ := h3 k j hkj
      refine ⟨hjn, ?_⟩
      intro hmem
      rcases List.mem_append.mp hmem with hm | hm
      · exact hja hm
      · simp at hm
        subst hm
        exact e (h4 k key j hkj hk)
  · intro k1 k2 j hk1 hk2
    rw [liveInst_cacheSet_none] at hk1 hk2
    by_cases e1 : k1 = key
    · rw [if_pos e1] at hk1; cases hk1
    · rw [if_neg e1] at hk1
      by_cases e2 : k2 = key
      · rw [if_pos e2] at hk2; cases hk2
      · rw [if_neg e2] at hk2
        exact h4 k1 k2 j hk1 hk2

theorem EntryInv_assign {c : Cache} {n : Nat} {a : List Nat} {key : String}
    {v : VNode} (h : EntryInv c n a) (_hv : cacheGet c key = some v)
    (_hvi : v.componentInstance = none) :
    EntryInv (cacheSet c key (some { v with componentInstance := some n })) (n + 1) a := by
  obtain ⟨h1, h2, h3, h4⟩ := h
  have hlive : ∀ k, liveInst (cacheSet c key (some { v with componentInstance := some n })) k =
      if k = key then some n else liveInst c k := by
    intro k
    unfold liveInst
    rw [cacheGet_cacheSet]
    by_cases e : k = key <;> simp [e]
  refine ⟨h1, ?_, ?_, ?_⟩
  · intro j hj; exact Nat.lt_succ_of_lt (h2 j hj)
  · intro k j hkj
    rw [hlive] at hkj
    by_cases e : k = key
    · rw [if_pos e] at hkj
      injection hkj with hkj
      subst hkj
      constructor
      · omega
      · intro hmem; exact absurd (h2 _ hmem) (by omega)
    · rw [if_neg e] at hkj
      obtain ⟨hjn, hja⟩ := h3 k j hkj
      exact ⟨Nat.lt_succ_of_lt hjn, hja⟩
  · intro k1 k2 j hk1 hk2
    rw [hlive] at hk1 hk2
    by_cases e1 : k1 = key
    · rw [if_pos e1] at hk1
      injection hk1 with hk1
      by_cases e2 : k2 = key
      · rw [e1, e2]
      · rw [if_neg e2] at hk2
        obtain ⟨hjn, _⟩ := h3 k2 j hk2
        omega
    · rw [if_neg e1] at hk1
      by_cases e2 : k2 = key
      · rw [if_pos e2] at hk2
        injection hk2 with hk2
        obtain ⟨hjn, _⟩ := h3 k1 j hk1
        omega
      · rw [if_neg e2] at hk2
        exact h4 k1 k2 j hk1 hk2

theorem EntryInv_pruneEntry {c : Cache} {n : Nat} {a : List Nat}
    (key : String) (ks : List String) (cur : Option VNode)
    {c2 : Cache} {ks2 : List String} {d : List Nat} {r : Bool}
    (h : EntryInv c n a)
    (he : pruneCacheEntryT (fun _ => false) c key ks cur = (c2, ks2, d, r)) :
    EntryInv c2 n (a ++ d) := by
  unfold pruneCacheEntryT at he
  cases hget : cacheGet c key with
  | none =>
    rw [hget] at he
    dsimp only at he
    injection he with e1 he
    injection he with e2 he
    injection he with e3 e4
    subst e1; subst e3
    simp only [List.append_nil]
    refine EntryInv_shrink ?_ h
    intro k
    rw [liveInst_cacheSet_none]
    by_cases e : k = key <;> simp [e]
  | some cached =>
    rw [hget] at he
    dsimp only at he
    cases hex : exemptFor cur cached with
    | true =>
      rw [hex] at he
      rw [if_pos rfl] at he
      injection he with e1 he
      injection he with e2 he
      injection he with e3 e4
      subst e1; subst e3
      simp only [List.append_nil]
      refine EntryInv_shrink ?_ h
      intro k
      rw [liveInst_cacheSet_none]
      by_cases e : k = key <;> simp [e]
    | false =>
      rw [hex] at he
      rw [if_neg (by simp)] at he
      cases hins : cached.componentInstance with
      | none =>
        rw [hins] at he
        injection he with e1 he
        injection he with e2 he
        injection he with e3 e4
        subst e1; subst e3
        simpa using h
      | some i =>
        rw [hins] at he
        dsimp only at he
        injection he with e1 he
        injection he with e2 he
        injection he with e3 e4
        subst e1; subst e3
        refine EntryInv_destroy h ?_
        unfold liveInst
        rw [hget]
        dsimp only
        exact hins

theorem EntryInv_pruneCacheGo (f : String → Bool) (cur : Option VNode)
    (n : Nat) (A : List Nat) :
    ∀ (todo : List String) (cache : Cache) (keys : List String) (acc : List Nat),
      EntryInv cache n (A ++ acc) →
      EntryInv (pruneCacheGo f cur todo cache keys acc).1 n
               (A ++ (pruneCacheGo f cur todo cache keys acc).2.2.1) := by
  intro todo
  induction todo with
  | nil => intro cache keys acc hh; simpa only [pruneCacheGo] using hh
  | cons k rest ih =>
    intro cache keys acc hh
    simp only [pruneCacheGo]
    cases hget : cacheGet cache k with
    | none => dsimp only; exact ih cache keys acc hh
    | some node =>
      dsimp only
      by_cases hpt : pruneTargets f node = true
      · rw [if_pos hpt]
        rcases he : pruneCacheEntryT (fun _ => false) cache k keys cur with ⟨c2, ks2, d, r⟩
        have h2 := EntryInv_pruneEntry k keys cur hh he
        rw [List.append_assoc] at h2
        cases r with
        | true => dsimp only; exact h2
        | false => dsimp only; exact ih _ _ _ h2
      · rw [if_neg hpt]
        exact ih cache keys acc hh

theorem EntryInv_destroyedGo (n : Nat) (A : List Nat) :
    ∀ (todo : List String) (cache : Cache) (keys : List String) (acc : List Nat),
      EntryInv cache n (A ++ acc) →
      EntryInv (destroyedGo todo cache keys acc).1 n
               (A ++ (destroyedGo todo cache keys acc).2.2.1) := by
  intro todo
  induction todo with
  | nil => intro cache keys acc hh; simpa only [destroyedGo] using hh
  | cons k rest ih =>
    intro cache keys acc hh
    simp only [destroyedGo]
    rcases he : pruneCacheEntryT (fun _ => false) cache k keys none with ⟨c2, ks2, d, r⟩
    have h2 := EntryInv_pruneEntry k keys none hh he
    rw [List.append_assoc] at h2
    cases r with
    | true => dsimp only; exact h2
    | false => dsimp only; exact ih _ _ _ h2

theorem EntryInv_renderMiss {c : Cache} {ks : List String} {n : Nat} {a : List Nat}
    (max : MaxProp) (uv : Option VNode) {v : VNode} (key : String)
    (h : EntryInv c n a) (hvi : v.componentInstance = none) :
    EntryInv (renderMiss max c ks uv v key).cache n
             (a ++ (renderMiss max c ks uv v key).destroyed) := by
  have h1 : EntryInv (cacheSet c key (some v)) n a := by
    refine EntryInv_shrink ?_ h
    intro k
    rw [liveInst_cacheSet_noinst c key k hvi]
    by_cases e : k = key <;> simp [e]
  have hvi2 : ({ v with data := { keepAlive := true } } : VNode).componentInstance = none := hvi
  simp only [renderMiss]
  by_cases hov : overLimit max (ks ++ [key]).length = true
  · rw [if_pos hov]
    rcases he : pruneCacheEntryT (fun _ => false) (cacheSet c key (some v))
        ((ks ++ [key]).headD "") (ks ++ [key]) uv with ⟨c2, ks2, d, r⟩
    have h2 := EntryInv_pruneEntry _ _ uv h1 he
    cases r with
    | true => dsimp only; exact h2
    | false =>
      dsimp only
      by_cases hs : (cacheGet c2 key).isSome = true
      · rw [if_pos hs]
        refine EntryInv_shrink ?_ h2
        intro k
        rw [liveInst_cacheSet_noinst c2 key k hvi2]
        by_cases e : k = key <;> simp [e]
      · rw [if_neg hs]
        exact h2
  · rw [if_neg hov]
    dsimp only
    simp only [List.append_nil]
    refine EntryInv_shrink ?_ h1
    intro k
    rw [liveInst_cacheSet_noinst (cacheSet c key (some v)) key k hvi2]
    by_cases e : k = key <;> simp [e]

theorem EntryInv_render (inc exc : Option Pattern) (max : MaxProp) {c : Cache}
    (ks : List String) {n : Nat} {a : List Nat} (uv v0 slot0 : Option VNode)
    (h : EntryInv c n a) :
    EntryInv (render inc exc max c ks uv (scrub v0) slot0).cache n
             (a ++ (render inc exc max c ks uv (scrub v0) slot0).destroyed) := by
  cases v0 with
  | none =>
    unfold scrub render
    simpa using h
  | some v =>
    unfold scrub render
    dsimp only
    cases hco : v.componentOptions with
    | none => simpa using h
    | some co =>
      dsimp only
      by_cases hrej : earlyReject inc exc (getComponentName (some co)) = true
      · rw [if_pos hrej]
        simpa using h
      · rw [if_neg hrej]
        cases hget : cacheGet c (deriveKey { key := v.key, tag := v.tag, componentOptions := some co, componentInstance := none, data := v.data } co) with
        | some cached =>
          dsimp only
          simp only [renderHit]
          simpa using h
        | none =>
          dsimp only
          exact EntryInv_renderMiss max uv _ h rfl

theorem EntryInv_stepOp (max : MaxProp) (s : DrvState) (op : Op) {a : List Nat}
    (h : EntryInv s.cache s.nextId a) :
    EntryInv (stepOp max s op).1.cache (stepOp max s op).1.nextId
             (a ++ (stepOp max s op).2) := by
  cases op with
  | cycle inc exc uv v0 =>
    have hr := EntryInv_render inc exc max s.keys uv v0 none h
    simp only [stepOp]
    cases hmk : (render inc exc max s.cache s.keys uv (scrub v0) none).missedKey with
    | none =>
      cases (render inc exc max s.cache s.keys uv (scrub v0) none).raised <;>
        (try dsimp only) <;> exact hr
    | some k =>
      cases hrz : (render inc exc max s.cache s.keys uv (scrub v0) none).raised with
      | true => try dsimp only
                exact hr
      | false =>
        try dsimp only
        cases hcv : cacheGet (render inc exc max s.cache s.keys uv (scrub v0) none).cache k with
        | none => try dsimp only
                  exact hr
        | some cv =>
          try dsimp only
          cases hci : cv.componentInstance with
          | some j => try dsimp only
                      exact hr
          | none =>
            try dsimp only
            exact EntryInv_assign hr hcv hci
  | pruneInc val uv =>
    simp only [stepOp]
    exact EntryInv_pruneCacheGo _ uv s.nextId a _ s.cache s.keys []
      (by simpa using h)
  | pruneExc val uv =>
    simp only [stepOp]
    exact EntryInv_pruneCacheGo _ uv s.nextId a _ s.cache s.keys []
      (by simpa using h)
  | teardown =>
    simp only [stepOp]
    exact EntryInv_destroyedGo s.nextId a _ s.cache s.keys []
      (by simpa using h)

theorem EntryInv_runOps (max : MaxProp) :
    ∀ (ops : List Op) (s : DrvState) (a : List Nat),
      EntryInv s.cache s.nextId a →
      EntryInv (runOps max s ops).1.cache (runOps max s ops).1.nextId
               (a ++ (runOps max s ops).2) := by
  intro ops
  induction ops with
  | nil => intro s a h; simpa only [runOps, List.append_nil] using h
  | cons op rest ih =>
    intro s a h
    have h1 := EntryInv_stepOp max s op h
    have h2 := ih (stepOp max s op).1 (a ++ (stepOp max s op).2) h1
    simp only [runOps]
    rw [← List.append_assoc]
    exact h2

/-! ### C4: the LRU scenario -/

/-- A request vnode for the C4 scenario: explicit key, tag, named component. -/
def c4v (k tg nm : String) (cid : Nat) : VNode :=
  { key := some k, tag := some tg,
    componentOptions := some ⟨⟨cid, ⟨some nm⟩⟩, some tg⟩,
    componentInstance := none, data := ⟨false⟩ }

/-- The currently rendering `_vnode` in the C4 scenario; its tag differs
from every cached entry's tag, so no eviction is exempted. -/
def c4root : VNode :=
  { key := none, tag := some "root", componentOptions := none,
    componentInstance := none, data := ⟨false⟩ }

/-- The C4 cycle sequence: miss A, miss B, miss C, hit A, miss D. -/
def c4ops : List Op :=
  [ .cycle none none (some c4root) (some (c4v "A" "a" "NA" 1)),
    .cycle none none (some c4root) (some (c4v "B" "b" "NB" 2)),
    .cycle none none (some c4root) (some (c4v "C" "c" "NC" 3)),
    .cycle none none (some c4root) (some (c4v "A" "a" "NA" 1)),
    .cycle none none (some c4root) (some (c4v "D" "d" "ND" 4)) ]

/-- C4: with max = 3 from the empty cache, the cycles miss(A), miss(B),
miss(C), hit(A), miss(D) drive the Recency Ledger through
[A] → [A,B] → [A,B,C] → [B,C,A] → [C,A,D]; B's held instance (fresh id 1,
assigned at B's miss) receives its destroy signal exactly once, during the
D-insertion cycle, B not being exempted by the currently-rendering tag
comparison. -/
theorem C4_lruScenario :
    (runOps (.num 3) initState (c4ops.take 1)).1.keys = ["A"] ∧
    (runOps (.num 3) initState (c4ops.take 2)).1.keys = ["A", "B"] ∧
    (runOps (.num 3) initState (c4ops.take 3)).1.keys = ["A", "B", "C"] ∧
    (runOps (.num 3) initState (c4ops.take 4)).1.keys = ["B", "C", "A"] ∧
    (runOps (.num 3) initState c4ops).1.keys = ["C", "A", "D"] ∧
    liveInst (runOps (.num 3) initState (c4ops.take 2)).1.cache "B" = some 1 ∧
    (runOps (.num 3) initState (c4ops.take 4)).2 = [] ∧
    (runOps (.num 3) initState c4ops).2 = [1] ∧
    exemptFor (some c4root) (c4v "B" "b" "NB" 2) = false := by
  decide

/-! ### C1: destroy-signal ordering in pruneCacheEntry -/

/-- A cached entry (instance id 5) for the C1 scenario. -/
def c1v : VNode :=
  { key := some "k", tag := some "t",
    componentOptions := some ⟨⟨7, ⟨some "NK"⟩⟩, some "t"⟩,
    componentInstance := some 5, data := ⟨true⟩ }

/-- C1 counterexample: the claim says the Store/Ledger removal completes
before the destroy signal is sent, so after a raising destroy the key is
absent from both.  In the code `$destroy` runs first: when it raises
(instance 5 throws), the call aborts with the entry still live in the
cache and the key still in the keys array — present in both, not absent. -/
theorem C1_counterexample :
    pruneCacheEntryT (fun i => i == 5) [("k", some c1v)] "k" ["k"] none =
      ([("k", some c1v)], ["k"], [5], true) ∧
    (cacheGet [("k", some c1v)] "k").isSome = true ∧
    "k" ∈ ["k"] := by
  decide

/-- C1 amended: the destroy signal is sent BEFORE the Store/Ledger removal;
when a non-exempt live entry's `$destroy` raises, the removal never runs:
the signal was delivered and the cache and keys are returned untouched, so
the entry stays fully present in both structures (consistent, never
half-evicted, but not cleaned up). -/
theorem C1_amended (throws : Nat → Bool) (cache : Cache) (key : String)
    (ks : List String) (cur : Option VNode) (v : VNode) (i : Nat)
    (hv : cacheGet cache key = some v) (hi : v.componentInstance = some i)
    (hex : exemptFor cur v = false) (ht : throws i = true) :
    pruneCacheEntryT throws cache key ks cur = (cache, ks, [i], true) := by
  unfold pruneCacheEntryT
  rw [hv]
  dsimp only
  rw [hex]
  rw [if_neg (by simp)]
  rw [hi]
  dsimp only
  rw [if_pos ht]

/-- C1 amended, witnessed at the concrete raising entry. -/
theorem C1_amended_witness :
    cacheGet [("k", some c1v)] "k" = some c1v ∧
    c1v.componentInstance = some 5 ∧
    exemptFor none c1v = false ∧
    (fun i => i == 5) 5 = true ∧
    pruneCacheEntryT (fun i => i == 5) [("k", some c1v)] "k" ["k"] none =
      ([("k", some c1v)], ["k"], [5], true) :=
  ⟨by decide, by decide, by decide, by decide,
    C1_amended (fun i => i == 5) [("k", some c1v)] "k" ["k"] none c1v 5
      (by decide) (by decide) (by decide) (by decide)⟩

/-! ### C6: key derivation -/

/-- A descriptor with an explicit key "k1" whose fallback would be
"42::tag". -/
def c6v : VNode :=
  { key := some "k1", tag := some "tag",
    componentOptions := some ⟨⟨42, ⟨some "N"⟩⟩, some "tag"⟩,
    componentInstance := none, data := ⟨false⟩ }

/-- The component options of `c6v`. -/
def c6co : VNodeComponentOptions := ⟨⟨42, ⟨some "N"⟩⟩, some "tag"⟩

/-- C6: key derivation is a pure function of the descriptor: an explicit
key is returned verbatim; otherwise the constructor identity, with "::"
and the tag appended exactly when the tag is non-empty; in particular an
explicit "k1" wins over the "42::tag" fallback. -/
theorem C6_keyDerivation :
    (∀ (v : VNode) (co : VNodeComponentOptions) (k : String),
      v.key = some k → deriveKey v co = k) ∧
    (∀ (v : VNode) (co : VNodeComponentOptions) (t : String),
      v.key = none → co.tag = some t → t ≠ "" →
      deriveKey v co = toString co.Ctor.cid ++ "::" ++ t) ∧
    (∀ (v : VNode) (co : VNodeComponentOptions),
      v.key = none → (co.tag = none ∨ co.tag = some "") →
      deriveKey v co = toString co.Ctor.cid) ∧
    deriveKey c6v c6co = "k1" ∧
    deriveKey { c6v with key := none } c6co = "42::tag" := by
  refine ⟨?_, ?_, ?_, by decide, by decide⟩
  · intro v co k hk
    unfold deriveKey
    rw [hk]
  · intro v co t hk ht hne
    unfold deriveKey
    rw [hk, ht]
    dsimp only
    rw [if_neg hne]
    rw [String.append_assoc]
  · intro v co hk hco
    unfold deriveKey
    rw [hk]
    rcases hco with hco | hco <;> rw [hco] <;> simp

/-- C6 witnessed at the concrete explicit-key descriptor. -/
theorem C6_keyDerivation_witness :
    c6v.key = some "k1" ∧ deriveKey c6v c6co = "k1" :=
  ⟨rfl, C6_keyDerivation.1 c6v c6co "k1" rfl⟩

/-! ### C3: capacity misconfiguration -/

/-- An already-cached entry B (instance id 5) for the C3 scenario. -/
def c3B : VNode :=
  { key := some "B", tag := some "b",
    componentOptions := some ⟨⟨2, ⟨some "NB"⟩⟩, some "b"⟩,
    componentInstance := some 5, data := ⟨true⟩ }

/-- The incoming request A for the C3 scenario. -/
def c3A : VNode :=
  { key := some "A", tag := some "a",
    componentOptions := some ⟨⟨1, ⟨some "NA"⟩⟩, some "a"⟩,
    componentInstance := none, data := ⟨false⟩ }

/-- The currently rendering `_vnode` in the C3 scenario. -/
def c3root : VNode :=
  { key := none, tag := some "root", componentOptions := none,
    componentInstance := none, data := ⟨false⟩ }

/-- C3 counterexample: the claim says any `max` that is not a valid
positive integer — "0" and "-1" among the examples — disables eviction.
But the string "0" is JS-truthy and parses to 0, so a miss with one cached
entry runs `keys.length > parseInt(max)` as `2 > 0` and evicts the oldest:
B's instance receives the destroy signal and B leaves both structures. -/
theorem C3_counterexample :
    (render none none (.str "0") [("B", some c3B)] ["B"] (some c3root)
        (some c3A) none).destroyed = [5] ∧
    (render none none (.str "0") [("B", some c3B)] ["B"] (some c3root)
        (some c3A) none).keys = ["A"] ∧
    cacheGet (render none none (.str "0") [("B", some c3B)] ["B"] (some c3root)
        (some c3A) none).cache "B" = none := by
  decide

/-- C3 amended: eviction is disabled exactly when `max` is JS-falsy (the
number 0, an empty string, absence) or a string whose `parseInt` is NaN;
such a Miss cycle only inserts — the key is appended, nothing is
destroyed, nothing raises, and the new entry is live.  (JS-truthy numeric
strings such as "0" or "-1" DO enforce the parsed bound instead.) -/
theorem C3_amended (max : MaxProp) (inc exc : Option Pattern) (cache : Cache)
    (ks : List String) (uv : Option VNode) (v : VNode) (co : VNodeComponentOptions)
    (hm : maxTruthy max = false ∨ maxParseInt max = none)
    (hco : v.componentOptions = some co)
    (hrej : earlyReject inc exc (getComponentName (some co)) = false)
    (hmiss : cacheGet cache (deriveKey v co) = none) :
    (render inc exc max cache ks uv (some v) none).keys = ks ++ [deriveKey v co] ∧
    (render inc exc max cache ks uv (some v) none).destroyed = [] ∧
    (render inc exc max cache ks uv (some v) none).raised = false ∧
    (cacheGet (render inc exc max cache ks uv (some v) none).cache
      (deriveKey v co)).isSome = true := by
  have hov : overLimit max (ks ++ [deriveKey v co]).length = false := by
    unfold overLimit
    rcases hm with hm | hm
    · rw [hm]; rfl
    · rw [hm]; exact Bool.and_false _
  unfold render
  dsimp only
  rw [hco]
  dsimp only
  rw [if_neg (by rw [hrej]; simp)]
  rw [hmiss]
  dsimp only
  simp only [renderMiss]
  rw [if_neg (by rw [hov]; simp)]
  refine ⟨rfl, rfl, rfl, ?_⟩
  rw [cacheGet_cacheSet]
  simp

/-- C3 amended, witnessed with the non-numeric string "abc" as max. -/
theorem C3_amended_witness :
    (maxTruthy (.str "abc") = false ∨ maxParseInt (.str "abc") = none) ∧
    c3A.componentOptions = some ⟨⟨1, ⟨some "NA"⟩⟩, some "a"⟩ ∧
    earlyReject none none (getComponentName (some ⟨⟨1, ⟨some "NA"⟩⟩, some "a"⟩)) = false ∧
    cacheGet [] (deriveKey c3A ⟨⟨1, ⟨some "NA"⟩⟩, some "a"⟩) = none ∧
    ((render none none (.str "abc") [] [] none (some c3A) none).keys =
      [] ++ [deriveKey c3A ⟨⟨1, ⟨some "NA"⟩⟩, some "a"⟩] ∧
     (render none none (.str "abc") [] [] none (some c3A) none).destroyed = [] ∧
     (render none none (.str "abc") [] [] none (some c3A) none).raised = false ∧
     (cacheGet (render none none (.str "abc") [] [] none (some c3A) none).cache
       (deriveKey c3A ⟨⟨1, ⟨some "NA"⟩⟩, some "a"⟩)).isSome = true) :=
  ⟨Or.inr (by decide), by decide, by decide, by decide,
    C3_amended (.str "abc") none none [] [] none c3A ⟨⟨1, ⟨some "NA"⟩⟩, some "a"⟩
      (Or.inr (by decide)) (by decide) (by decide) (by decide)⟩

/-! ### C10: null slot means a later miss -/

/-- C10: a completed (non-raising) prune leaves the key as an own property
of the cache object mapped to null (not deleted); the hit test reads
truthiness of the slot, so a later cycle deriving the same key takes the
miss branch: a fresh entry is stored under the key and the key is appended
to the Ledger tail (with no capacity bound in effect, no eviction
follows). -/
theorem C10_missAfterPrune (cache : Cache) (ks : List String)
    (cur : Option VNode) (key : String) (c2 : Cache) (ks2 : List String)
    (d : List Nat) (inc exc : Option Pattern) (max : MaxProp)
    (uv slot0 : Option VNode) (v : VNode) (co : VNodeComponentOptions)
    (hp : pruneCacheEntry cache key ks cur = (c2, ks2, d, false))
    (hco : v.componentOptions = some co)
    (hkey : deriveKey v co = key)
    (hrej : earlyReject inc exc (getComponentName (some co)) = false)
    (hmax : maxTruthy max = false) :
    cacheHasKey c2 key = true ∧
    cacheGet c2 key = none ∧
    (render inc exc max c2 ks2 uv (some v) slot0).missedKey = some key ∧
    (render inc exc max c2 ks2 uv (some v) slot0).keys = ks2 ++ [key] ∧
    (cacheGet (render inc exc max c2 ks2 uv (some v) slot0).cache key).isSome = true ∧
    (render inc exc max c2 ks2 uv (some v) slot0).destroyed = [] := by
  rw [pruneCacheEntry] at hp
  rcases pruneCacheEntryT_shape (fun _ => false) cache key ks cur with
    ⟨d0, hd⟩ | ⟨d0, hd⟩
  swap
  · rw [hp] at hd
    injection hd with e1 hd
    injection hd with e2 hd
    injection hd with e3 e4
    cases e4
  · rw [hp] at hd
    injection hd with e1 hd
    injection hd with e2 hd
    injection hd with e3 e4
    subst e1
    subst e2
    have hget2 : cacheGet (cacheSet cache key none) key = none := by
      rw [cacheGet_cacheSet]; simp
    have hov : overLimit max (ks.erase key ++ [key]).length = false := by
      unfold overLimit
      rw [hmax]; rfl
    have hrender : render inc exc max (cacheSet cache key none) (ks.erase key) uv (some v) slot0 =
        ⟨cacheSet (cacheSet (cacheSet cache key none) key (some v)) key
            (some { v with data := { keepAlive := true } }),
          ks.erase key ++ [key], [], false,
          some { v with data := { keepAlive := true } }, some key⟩ := by
      unfold render
      dsimp only
      rw [hco]
      dsimp only
      rw [if_neg (by rw [hrej]; simp)]
      rw [hkey, hget2]
      dsimp only
      simp only [renderMiss]
      rw [if_neg (by rw [hov]; simp)]
      rw [hco]
    refine ⟨cacheHasKey_cacheSet cache key none, hget2, ?_, ?_, ?_, ?_⟩
    · rw [hrender]
    · rw [hrender]
    · rw [hrender]
      dsimp only
      rw [cacheGet_cacheSet]
      simp
    · rw [hrender]

/-- C10 witnessed: prune B out, then re-request B. -/
def c10B : VNode :=
  { key := some "B", tag := some "b",
    componentOptions := some ⟨⟨2, ⟨some "NB"⟩⟩, some "b"⟩,
    componentInstance := some 9, data := ⟨true⟩ }

/-- C10 witness at a concrete pruned entry. -/
theorem C10_missAfterPrune_witness :
    pruneCacheEntry [("B", some c10B)] "B" ["B"] none =
      ([("B", none)], [], [9], false) ∧
    (cacheHasKey [("B", none)] "B" = true ∧
     cacheGet [("B", none)] "B" = none ∧
     (render none none .absent [("B", none)] [] none (some c10B) none).missedKey = some "B" ∧
     (render none none .absent [("B", none)] [] none (some c10B) none).keys = [] ++ ["B"] ∧
     (cacheGet (render none none .absent [("B", none)] [] none (some c10B) none).cache "B").isSome = true ∧
     (render none none .absent [("B", none)] [] none (some c10B) none).destroyed = []) := by
  constructor
  · decide
  · exact C10_missAfterPrune [("B", some c10B)] ["B"] none "B" [("B", none)] [] [9]
      none none .absent none none c10B ⟨⟨2, ⟨some "NB"⟩⟩, some "b"⟩
      (by decide) (by decide) (by decide) (by decide) (by decide)

/-! ### C5: the cacheability predicate -/

theorem renderMiss_missedKey (max : MaxProp) (c : Cache) (ks : List String)
    (uv : Option VNode) (v : VNode) (key : String) :
    (renderMiss max c ks uv v key).missedKey = some key := by
  simp only [renderMiss]
  by_cases hov : overLimit max (ks ++ [key]).length = true
  · rw [if_pos hov]
    rcases he : pruneCacheEntryT (fun _ => false) (cacheSet c key (some v))
        ((ks ++ [key]).headD "") (ks ++ [key]) uv with ⟨c2, ks2, d, r⟩
    cases r <;> rfl
  · rw [if_neg hov]

/-- The early-return condition of `render` is exactly the negation of the
specification's cacheability predicate. -/
theorem earlyReject_cacheableSpec (inc exc : Option Pattern) (name : Option String) :
    earlyReject inc exc name = !cacheableSpec name inc exc := by
  unfold earlyReject cacheableSpec
  cases patternTruthy inc <;> cases patternTruthy exc <;>
    cases jsTruthy name <;> cases matchesOpt inc name <;>
    cases matchesOpt exc name <;> rfl

/-- C5: a request with component options proceeds past the early return to
the hit/miss path iff the spec's cacheability predicate accepts it —
equivalently, the render leaves cache, keys and destroy signals untouched
and returns the vnode unmodified exactly when the predicate rejects it;
and a request with no truthy derivable name is never cacheable while an
include filter is in effect. -/
theorem C5_cacheable (inc exc : Option Pattern) (max : MaxProp) (cache : Cache)
    (ks : List String) (uv slot0 : Option VNode) (v : VNode)
    (co : VNodeComponentOptions) (hco : v.componentOptions = some co)
    (hka : v.data.keepAlive = false) :
    (cacheableSpec (getComponentName (some co)) inc exc = false ↔
      render inc exc max cache ks uv (some v) slot0 =
        ⟨cache, ks, [], false, some v, none⟩) ∧
    (jsTruthy (getComponentName (some co)) = false → patternTruthy inc = true →
      cacheableSpec (getComponentName (some co)) inc exc = false) := by
  constructor
  · constructor
    · intro hcs
      have her : earlyReject inc exc (getComponentName (some co)) = true := by
        rw [earlyReject_cacheableSpec, hcs]
        rfl
      unfold render
      dsimp only
      rw [hco]
      dsimp only
      rw [if_pos her]
    · intro hout
      by_contra hcs
      have hcs' : cacheableSpec (getComponentName (some co)) inc exc = true := by
        cases h' : cacheableSpec (getComponentName (some co)) inc exc
        · exact absurd h' hcs
        · rfl
      have her : earlyReject inc exc (getComponentName (some co)) = false := by
        rw [earlyReject_cacheableSpec, hcs']
        rfl
      unfold render at hout
      dsimp only at hout
      rw [hco] at hout
      dsimp only at hout
      rw [if_neg (by rw [her]; simp)] at hout
      cases hget : cacheGet cache (deriveKey v co) with
      | some cached =>
        rw [hget] at hout
        dsimp only at hout
        unfold renderHit at hout
        have hret := congrArg RenderOut.returned hout
        dsimp only at hret
        injection hret with hret
        have hdata := congrArg VNode.data hret
        dsimp only at hdata
        have hflag := congrArg VNodeData.keepAlive hdata
        rw [hka] at hflag
        simp at hflag
      | none =>
        rw [hget] at hout
        dsimp only at hout
        have hmk := congrArg RenderOut.missedKey hout
        rw [renderMiss_missedKey] at hmk
        simp at hmk
  · intro hname hinc
    unfold cacheableSpec
    rw [hname, hinc]
    rfl

/-- A request whose name "Y" is not in the include list (C5 witness). -/
def c5v : VNode :=
  { key := some "y", tag := some "y",
    componentOptions := some ⟨⟨3, ⟨some "Y"⟩⟩, some "y"⟩,
    componentInstance := none, data := ⟨false⟩ }

/-- C5 witnessed: with include = ["X"], the request named "Y" is not
cacheable and the render call mutates nothing. -/
theorem C5_cacheable_witness :
    c5v.componentOptions = some ⟨⟨3, ⟨some "Y"⟩⟩, some "y"⟩ ∧
    c5v.data.keepAlive = false ∧
    cacheableSpec (getComponentName (some ⟨⟨3, ⟨some "Y"⟩⟩, some "y"⟩))
      (some (.arr ["X"])) none = false ∧
    render (some (.arr ["X"])) none .absent [] [] none (some c5v) none =
      ⟨[], [], [], false, some c5v, none⟩ :=
  ⟨rfl, rfl, by decide,
    ((C5_cacheable (some (.arr ["X"])) none .absent [] [] none none c5v
        ⟨⟨3, ⟨some "Y"⟩⟩, some "y"⟩ rfl rfl).1).mp (by decide)⟩

/-! ### C8: the capacity invariant -/

theorem overLimit_num (m : Nat) (hm : 0 < m) (len : Nat) :
    overLimit (.num (m : Int)) len = decide (m < len) := by
  unfold overLimit maxTruthy maxParseInt
  dsimp only
  have h1 : ((m : Int) != 0) = true := by
    simp
    omega
  rw [h1]
  rw [Bool.true_and]
  rcases Nat.lt_or_ge m len with h | h
  · rw [decide_eq_true h]
    have : ((len : Int) > (m : Int)) := by exact_mod_cast h
    rw [decide_eq_true this]
  · have h2 : ¬ (m < len) := by omega
    rw [decide_eq_false h2]
    have : ¬ ((len : Int) > (m : Int)) := by
      simp
      exact_mod_cast h
    rw [decide_eq_false this]

theorem allSome_setNone {c : Cache} (key : String)
    (hsome : ∀ k w, cacheGet c k = some w → w.componentInstance.isSome = true) :
    ∀ k w, cacheGet (cacheSet c key none) k = some w →
      w.componentInstance.isSome = true := by
  intro k w hk
  rw [cacheGet_cacheSet] at hk
  by_cases e : k = key
  · rw [if_pos e] at hk; cases hk
  · rw [if_neg e] at hk; exact hsome k w hk

theorem allSome_pruneEntry {c : Cache} {key : String} {ks : List String}
    {cur : Option VNode} {c2 : Cache} {ks2 : List String} {d : List Nat} {r : Bool}
    (hsome : ∀ k w, cacheGet c k = some w → w.componentInstance.isSome = true)
    (he : pruneCacheEntryT (fun _ => false) c key ks cur = (c2, ks2, d, r)) :
    ∀ k w, cacheGet c2 k = some w → w.componentInstance.isSome = true := by
  rcases pruneCacheEntryT_shape (fun _ => false) c key ks cur with ⟨d0, hd⟩ | ⟨d0, hd⟩ <;>
    rw [he] at hd <;>
    injection hd with e1 hd <;>
    injection hd with e2 hd <;>
    injection hd with e3 e4 <;>
    rw [e1]
  · exact allSome_setNone key hsome
  · exact hsome

theorem allSome_pruneCacheGo (f : String → Bool) (cur : Option VNode) :
    ∀ (todo : List String) (c : Cache) (ks : List String) (acc : List Nat),
      (∀ k w, cacheGet c k = some w → w.componentInstance.isSome = true) →
      ∀ k w, cacheGet (pruneCacheGo f cur todo c ks acc).1 k = some w →
        w.componentInstance.isSome = true := by
  intro todo
  induction todo with
  | nil => intro c ks acc hsome; simpa only [pruneCacheGo] using hsome
  | cons k0 rest ih =>
    intro c ks acc hsome
    simp only [pruneCacheGo]
    cases hget : cacheGet c k0 with
    | none => dsimp only; exact ih c ks acc hsome
    | some node =>
      dsimp only
      by_cases hpt : pruneTargets f node = true
      · rw [if_pos hpt]
        rcases he : pruneCacheEntryT (fun _ => false) c k0 ks cur with ⟨c2, ks2, d, r⟩
        have h2 := allSome_pruneEntry hsome he
        cases r with
        | true => dsimp only; exact h2
        | false => dsimp only; exact ih _ _ _ h2
      · rw [if_neg hpt]
        exact ih c ks acc hsome

theorem allSome_destroyedGo :
    ∀ (todo : List String) (c : Cache) (ks : List String) (acc : List Nat),
      (∀ k w, cacheGet c k = some w → w.componentInstance.isSome = true) →
      ∀ k w, cacheGet (destroyedGo todo c ks acc).1 k = some w →
        w.componentInstance.isSome = true := by
  intro todo
  induction todo with
  | nil => intro c ks acc hsome; simpa only [destroyedGo] using hsome
  | cons k0 rest ih =>
    intro c ks acc hsome
    simp only [destroyedGo]
    rcases he : pruneCacheEntryT (fun _ => false) c k0 ks none with ⟨c2, ks2, d, r⟩
    have h2 := allSome_pruneEntry hsome he
    cases r with
    | true => dsimp only; exact h2
    | false => dsimp only; exact ih _ _ _ h2

theorem keys_sublist_pruneCacheGo (f : String → Bool) (cur : Option VNode) :
    ∀ (todo : List String) (c : Cache) (ks : List String) (acc : List Nat),
      (pruneCacheGo f cur todo c ks acc).2.1.Sublist ks := by
  intro todo
  induction todo with
  | nil => intro c ks acc; simp only [pruneCacheGo]; exact List.Sublist.refl ks
  | cons k0 rest ih =>
    intro c ks acc
    simp only [pruneCacheGo]
    cases hget : cacheGet c k0 with
    | none => dsimp only; exact ih c ks acc
    | some node =>
      dsimp only
      by_cases hpt : pruneTargets f node = true
      · rw [if_pos hpt]
        rcases he : pruneCacheEntryT (fun _ => false) c k0 ks cur with ⟨c2, ks2, d, r⟩
        rcases pruneCacheEntryT_shape (fun _ => false) c k0 ks cur with ⟨d0, hd⟩ | ⟨d0, hd⟩ <;>
          rw [he] at hd <;>
          injection hd with e1 hd <;>
          injection hd with e2 hd <;>
          injection hd with e3 e4
        · cases r with
          | true => cases e4
          | false =>
            dsimp only
            exact (ih _ _ _).trans (e2 ▸ List.erase_sublist k0 ks)
        · cases r with
          | true => dsimp only; exact e2 ▸ List.Sublist.refl ks
          | false =>
            dsimp only
            exact (ih _ _ _).trans (e2 ▸ List.Sublist.refl ks)
      · rw [if_neg hpt]
        exact ih c ks acc

theorem keys_sublist_destroyedGo :
    ∀ (todo : List String) (c : Cache) (ks : List String) (acc : List Nat),
      (destroyedGo todo c ks acc).2.1.Sublist ks := by
  intro todo
  induction todo with
  | nil => intro c ks acc; simp only [destroyedGo]; exact List.Sublist.refl ks
  | cons k0 rest ih =>
    intro c ks acc
    simp only [destroyedGo]
    rcases he : pruneCacheEntryT (fun _ => false) c k0 ks none with ⟨c2, ks2, d, r⟩
    rcases pruneCacheEntryT_shape (fun _ => false) c k0 ks none with ⟨d0, hd⟩ | ⟨d0, hd⟩ <;>
      rw [he] at hd <;>
      injection hd with e1 hd <;>
      injection hd with e2 hd <;>
      injection hd with e3 e4
    · cases r with
      | true => cases e4
      | false =>
        dsimp only
        exact (ih _ _ _).trans (e2 ▸ List.erase_sublist k0 ks)
    · cases r with
      | true => dsimp only; exact e2 ▸ List.Sublist.refl ks
      | false =>
        dsimp only
        exact (ih _ _ _).trans (e2 ▸ List.Sublist.refl ks)

theorem renderMiss_capacity {m : Nat} (hm : 0 < m) {c : Cache} {ks : List String}
    (uv : Option VNode) {v : VNode} (key : String)
    (hB : InvB c ks)
    (hsome : ∀ k w, cacheGet c k = some w → w.componentInstance.isSome = true)
    (hlen : ks.length ≤ m)
    (hk : cacheGet c key = none) :
    (renderMiss (.num (m : Int)) c ks uv v key).raised = false ∧
    (renderMiss (.num (m : Int)) c ks uv v key).keys.length ≤ m ∧
    (ks.length = m → (renderMiss (.num (m : Int)) c ks uv v key).keys.length = m) ∧
    InvB (renderMiss (.num (m : Int)) c ks uv v key).cache
         (renderMiss (.num (m : Int)) c ks uv v key).keys ∧
    (∀ k w, cacheGet (renderMiss (.num (m : Int)) c ks uv v key).cache k = some w →
      k ≠ key → w.componentInstance.isSome = true) ∧
    cacheGet (renderMiss (.num (m : Int)) c ks uv v key).cache key =
      some { v with data := { keepAlive := true } } ∧
    (renderMiss (.num (m : Int)) c ks uv v key).missedKey = some key := by
  have hkey_not : key ∉ ks := by
    rw [hB.2 key, hk]
    simp
  have h1 : InvB (cacheSet c key (some v)) (ks ++ [key]) := InvB_insert hB hk v
  have hlen1 : (ks ++ [key]).length = ks.length + 1 := by simp
  simp only [renderMiss]
  rw [overLimit_num m hm]
  by_cases hov : m < (ks ++ [key]).length
  · rw [decide_eq_true hov]
    rw [if_pos rfl]
    have hkm : ks.length = m := by omega
    obtain ⟨k0, kt, hks⟩ : ∃ a l, ks = a :: l := by
      cases ks with
      | nil => simp at hkm; omega
      | cons a l => exact ⟨a, l, rfl⟩
    have hk0mem : k0 ∈ ks := by rw [hks]; exact List.mem_cons_self k0 kt
    have hk0key : k0 ≠ key := fun e => hkey_not (e ▸ hk0mem)
    obtain ⟨w0, hw0⟩ : ∃ w, cacheGet c k0 = some w := by
      have := (hB.2 k0).mp hk0mem
      exact Option.isSome_iff_exists.mp this
    have hw0c1 : cacheGet (cacheSet c key (some v)) k0 = some w0 := by
      rw [cacheGet_cacheSet, if_neg hk0key]
      exact hw0
    have hhead : (ks ++ [key]).headD "" = k0 := by rw [hks]; rfl
    rw [hhead]
    have hnor := pruneCacheEntry_noraise (ks ++ [key]) uv
      (fun w hw => by
        rw [hw0c1] at hw
        injection hw with hw
        exact hw ▸ hsome k0 w0 hw0)
    rw [pruneCacheEntry] at hnor
    rcases pruneCacheEntryT_shape (fun _ => false) (cacheSet c key (some v)) k0
        (ks ++ [key]) uv with ⟨d0, hd⟩ | ⟨d0, hd⟩
    swap
    · rw [hd] at hnor
      cases hnor
    · rw [hd]
      dsimp only
      have hgetc2 : cacheGet (cacheSet (cacheSet c key (some v)) k0 none) key = some v := by
        rw [cacheGet_cacheSet, if_neg (fun e => hk0key e.symm), cacheGet_cacheSet, if_pos rfl]
      rw [if_pos (by rw [hgetc2]; rfl)]
      have hk0mem1 : k0 ∈ ks ++ [key] := List.mem_append.mpr (Or.inl hk0mem)
      have hlen2 : ((ks ++ [key]).erase k0).length = m := by
        rw [List.length_erase_of_mem hk0mem1]
        omega
      have hB2 : InvB (cacheSet (cacheSet c key (some v)) k0 none)
          ((ks ++ [key]).erase k0) := InvB_remove h1 k0
      refine ⟨rfl, by rw [hlen2], fun _ => hlen2, ?_, ?_, ?_, rfl⟩
      · exact InvB_setLive hB2 (by rw [hgetc2]; rfl) _
      · intro k w hkw hne
        rw [cacheGet_cacheSet, if_neg hne, cacheGet_cacheSet] at hkw
        by_cases e0 : k = k0
        · rw [if_pos e0] at hkw; cases hkw
        · rw [if_neg e0, cacheGet_cacheSet, if_neg hne] at hkw
          exact hsome k w hkw
      · rw [cacheGet_cacheSet, if_pos rfl]
  · rw [decide_eq_false hov]
    rw [if_neg (by simp)]
    dsimp only
    refine ⟨rfl, by simp; omega, by intro h; omega, ?_, ?_, ?_, rfl⟩
    · exact InvB_setLive h1 (by rw [cacheGet_cacheSet, if_pos rfl]; rfl) _
    · intro k w hkw hne
      rw [cacheGet_cacheSet, if_neg hne, cacheGet_cacheSet, if_neg hne] at hkw
      exact hsome k w hkw
    · rw [cacheGet_cacheSet, if_pos rfl]

/-- Reachable-state invariant for the capacity claim: Store/Ledger
bijection, every live entry carries an instance, and the Ledger is within
the bound. -/
def InvM (m : Nat) (s : DrvState) : Prop :=
  InvB s.cache s.keys ∧
  (∀ k w, cacheGet s.cache k = some w → w.componentInstance.isSome = true) ∧
  s.keys.length ≤ m

theorem InvM_cycle (m : Nat) (hm : 0 < m) (s : DrvState)
    (inc exc : Option Pattern) (uv v0 : Option VNode)
    (h : InvM m s) :
    InvM m (stepOp (.num (m : Int)) s (.cycle inc exc uv v0)).1 ∧
    (cycleMissed (.num (m : Int)) s inc exc uv v0 = true → s.keys.length = m →
      (stepOp (.num (m : Int)) s (.cycle inc exc uv v0)).1.keys.length = m) := by
  obtain ⟨hB, hsome, hlen⟩ := h
  cases v0 with
  | none =>
    refine ⟨⟨hB, hsome, hlen⟩, ?_⟩
    intro hmiss
    simp [cycleMissed, scrub, render] at hmiss
  | some v =>
    cases hco : v.componentOptions with
    | none =>
      have hout : render inc exc (.num (m : Int)) s.cache s.keys uv (scrub (some v)) none =
          ⟨s.cache, s.keys, [], false,
            some { v with componentInstance := none }, none⟩ := by
        unfold scrub render
        dsimp only
        rw [hco]
      have hstep : stepOp (.num (m : Int)) s (.cycle inc exc uv (some v)) =
          (⟨s.cache, s.keys, s.nextId⟩, []) := by
        simp only [stepOp]
        rw [hout]
      rw [hstep]
      refine ⟨⟨hB, hsome, hlen⟩, ?_⟩
      intro hmiss
      unfold cycleMissed at hmiss
      rw [hout] at hmiss
      simp at hmiss
    | some co =>
      by_cases hrej : earlyReject inc exc (getComponentName (some co)) = true
      · have hout : render inc exc (.num (m : Int)) s.cache s.keys uv (scrub (some v)) none =
            ⟨s.cache, s.keys, [], false,
              some { key := v.key, tag := v.tag, componentOptions := some co,
                     componentInstance := none, data := v.data }, none⟩ := by
          unfold scrub render
          dsimp only
          rw [hco]
          dsimp only
          rw [if_pos hrej]
        have hstep : stepOp (.num (m : Int)) s (.cycle inc exc uv (some v)) =
            (⟨s.cache, s.keys, s.nextId⟩, []) := by
          simp only [stepOp]
          rw [hout]
        rw [hstep]
        refine ⟨⟨hB, hsome, hlen⟩, ?_⟩
        intro hmiss
        unfold cycleMissed at hmiss
        rw [hout] at hmiss
        simp at hmiss
      · cases hget : cacheGet s.cache (deriveKey { key := v.key, tag := v.tag, componentOptions := some co, componentInstance := none, data := v.data } co) with
        | some cached =>
          have hout : render inc exc (.num (m : Int)) s.cache s.keys uv (scrub (some v)) none = ⟨s.cache, removeFirst s.keys (deriveKey { key := v.key, tag := v.tag, componentOptions := some co, componentInstance := none, data := v.data } co) ++ [(deriveKey { key := v.key, tag := v.tag, componentOptions := some co, componentInstance := none, data := v.data } co)], [], false, some { key := v.key, tag := v.tag, componentOptions := some co, componentInstance := cached.componentInstance, data := { keepAlive := true } }, none⟩ := by
            unfold scrub render
            dsimp only
            rw [hco]
            dsimp only
            rw [if_neg hrej]
            rw [hget]
            rfl
          have hstep : stepOp (.num (m : Int)) s (.cycle inc exc uv (some v)) = (⟨s.cache, removeFirst s.keys (deriveKey { key := v.key, tag := v.tag, componentOptions := some co, componentInstance := none, data := v.data } co) ++ [(deriveKey { key := v.key, tag := v.tag, componentOptions := some co, componentInstance := none, data := v.data } co)], s.nextId⟩, []) := by
            simp only [stepOp]
            rw [hout]
          rw [hstep]
          have hmem : (deriveKey { key := v.key, tag := v.tag, componentOptions := some co, componentInstance := none, data := v.data } co) ∈ s.keys := by
            rw [hB.2]
            rw [hget]
            rfl
          have hpos : 0 < s.keys.length := List.length_pos.mpr
            (fun e => by rw [e] at hmem; cases hmem)
          have hlen2 : (removeFirst s.keys (deriveKey { key := v.key, tag := v.tag, componentOptions := some co, componentInstance := none, data := v.data } co) ++ [(deriveKey { key := v.key, tag := v.tag, componentOptions := some co, componentInstance := none, data := v.data } co)]).length = s.keys.length := by
            simp only [removeFirst, List.length_append, List.length_erase_of_mem hmem,
              List.length_cons, List.length_nil]
            omega
          refine ⟨⟨?_, hsome, by rw [hlen2]; exact hlen⟩, ?_⟩
          · simpa only [removeFirst] using InvB_touch hB (by rw [hget]; rfl)
          · intro hmiss
            unfold cycleMissed at hmiss
            rw [hout] at hmiss
            simp at hmiss
        | none =>
          have hout : render inc exc (.num (m : Int)) s.cache s.keys uv (scrub (some v)) none = (renderMiss (.num (m : Int)) s.cache s.keys uv { key := v.key, tag := v.tag, componentOptions := some co, componentInstance := none, data := v.data } (deriveKey { key := v.key, tag := v.tag, componentOptions := some co, componentInstance := none, data := v.data } co)) := by
            unfold scrub render
            dsimp only
            rw [hco]
            dsimp only
            rw [if_neg hrej]
            rw [hget]
          obtain ⟨hc1, hc2, hc3, hc4, hc5, hc6, hc7⟩ :=
            @renderMiss_capacity m hm s.cache s.keys uv { key := v.key, tag := v.tag, componentOptions := some co, componentInstance := none, data := v.data } (deriveKey { key := v.key, tag := v.tag, componentOptions := some co, componentInstance := none, data := v.data } co) hB hsome hlen hget
          have hstep : stepOp (.num (m : Int)) s (.cycle inc exc uv (some v)) = (⟨cacheSet (renderMiss (.num (m : Int)) s.cache s.keys uv { key := v.key, tag := v.tag, componentOptions := some co, componentInstance := none, data := v.data } (deriveKey { key := v.key, tag := v.tag, componentOptions := some co, componentInstance := none, data := v.data } co)).cache (deriveKey { key := v.key, tag := v.tag, componentOptions := some co, componentInstance := none, data := v.data } co) (some { key := v.key, tag := v.tag, componentOptions := some co, componentInstance := some s.nextId, data := { keepAlive := true } }), (renderMiss (.num (m : Int)) s.cache s.keys uv { key := v.key, tag := v.tag, componentOptions := some co, componentInstance := none, data := v.data } (deriveKey { key := v.key, tag := v.tag, componentOptions := some co, componentInstance := none, data := v.data } co)).keys, s.nextId + 1⟩, (renderMiss (.num (m : Int)) s.cache s.keys uv { key := v.key, tag := v.tag, componentOptions := some co, componentInstance := none, data := v.data } (deriveKey { key := v.key, tag := v.tag, componentOptions := some co, componentInstance := none, data := v.data } co)).destroyed) := by
            simp only [stepOp]
            rw [hout]
            rw [hc7, hc1]
            dsimp only
            rw [hc6]
          rw [hstep]
          refine ⟨⟨?_, ?_, hc2⟩, fun _ hkm => hc3 hkm⟩
          · exact InvB_setLive hc4 (by rw [hc6]; rfl) _
          · intro k w hkw
            rw [cacheGet_cacheSet] at hkw
            by_cases e : k = (deriveKey { key := v.key, tag := v.tag, componentOptions := some co, componentInstance := none, data := v.data } co)
            · rw [if_pos e] at hkw
              injection hkw with hkw
              rw [← hkw]
              rfl
            · rw [if_neg e] at hkw
              exact hc5 k w hkw e

theorem InvM_stepOp (m : Nat) (hm : 0 < m) (s : DrvState) (op : Op)
    (h : InvM m s) : InvM m (stepOp (.num (m : Int)) s op).1 := by
  cases op with
  | cycle inc exc uv v0 => exact (InvM_cycle m hm s inc exc uv v0 h).1
  | pruneInc val uv =>
    obtain ⟨hB, hsome, hlen⟩ := h
    simp only [stepOp]
    exact ⟨InvB_pruneCacheGo _ uv _ s.cache s.keys [] hB,
      allSome_pruneCacheGo _ uv _ s.cache s.keys [] hsome,
      le_trans (keys_sublist_pruneCacheGo _ uv _ s.cache s.keys []).length_le hlen⟩
  | pruneExc val uv =>
    obtain ⟨hB, hsome, hlen⟩ := h
    simp only [stepOp]
    exact ⟨InvB_pruneCacheGo _ uv _ s.cache s.keys [] hB,
      allSome_pruneCacheGo _ uv _ s.cache s.keys [] hsome,
      le_trans (keys_sublist_pruneCacheGo _ uv _ s.cache s.keys []).length_le hlen⟩
  | teardown =>
    obtain ⟨hB, hsome, hlen⟩ := h
    simp only [stepOp]
    exact ⟨InvB_destroyedGo _ s.cache s.keys [] hB,
      allSome_destroyedGo _ s.cache s.keys [] hsome,
      le_trans (keys_sublist_destroyedGo _ s.cache s.keys []).length_le hlen⟩

theorem InvM_runOps (m : Nat) (hm : 0 < m) :
    ∀ (ops : List Op) (s : DrvState), InvM m s →
      InvM m (runOps (.num (m : Int)) s ops).1 := by
  intro ops
  induction ops with
  | nil => intro s h; exact h
  | cons op rest ih =>
    intro s h
    exact ih _ (InvM_stepOp m hm s op h)

/-! ### Grounding the raising environment: the benign driver is its
`fun _ => false` specialization -/

theorem renderMissT_false (max : MaxProp) (cache : Cache) (keys : List String)
    (uvnode : Option VNode) (v : VNode) (key : String) :
    renderMissT (fun _ => false) max cache keys uvnode v key =
      renderMiss max cache keys uvnode v key := rfl

theorem renderT_false (inc exc : Option Pattern) (max : MaxProp)
    (cache : Cache) (keys : List String) (uvnode vnode slot0 : Option VNode) :
    renderT (fun _ => false) inc exc max cache keys uvnode vnode slot0 =
      render inc exc max cache keys uvnode vnode slot0 := rfl

theorem cycleMissedT_false (max : MaxProp) (s : DrvState)
    (inc exc : Option Pattern) (uv v0 : Option VNode) :
    cycleMissedT (fun _ => false) max s inc exc uv v0 =
      cycleMissed max s inc exc uv v0 := rfl

theorem pruneCacheGoT_false (f : String → Bool) (cur : Option VNode)
    (todo : List String) : ∀ c ks acc,
    pruneCacheGoT (fun _ => false) f cur todo c ks acc =
      pruneCacheGo f cur todo c ks acc := by
  induction todo with
  | nil => intro c ks acc; rfl
  | cons k rest ih =>
    intro c ks acc
    simp only [pruneCacheGoT, pruneCacheGo]
    cases hget : cacheGet c k with
    | none => dsimp only; exact ih c ks acc
    | some node =>
      dsimp only
      by_cases hpt : pruneTargets f node = true
      · rw [if_pos hpt, if_pos hpt]
        rcases he : pruneCacheEntryT (fun _ => false) c k ks cur with ⟨c2, ks2, d, r⟩
        cases r
        · dsimp only; exact ih c2 ks2 (acc ++ d)
        · rfl
      · rw [if_neg hpt, if_neg hpt]
        exact ih c ks acc

theorem destroyedGoT_false (todo : List String) : ∀ c ks acc,
    destroyedGoT (fun _ => false) todo c ks acc =
      destroyedGo todo c ks acc := by
  induction todo with
  | nil => intro c ks acc; rfl
  | cons k rest ih =>
    intro c ks acc
    simp only [destroyedGoT, destroyedGo]
    rcases he : pruneCacheEntryT (fun _ => false) c k ks none with ⟨c2, ks2, d, r⟩
    cases r
    · dsimp only; exact ih c2 ks2 (acc ++ d)
    · rfl

theorem stepOpT_false (max : MaxProp) (s : DrvState) (op : Op) :
    stepOpT (fun _ => false) max s op = stepOp max s op := by
  cases op with
  | cycle inc exc uv v0 => rfl
  | pruneInc val uv =>
    simp only [stepOpT, stepOp, pruneCacheT, pruneCache, pruneCacheGoT_false]
  | pruneExc val uv =>
    simp only [stepOpT, stepOp, pruneCacheT, pruneCache, pruneCacheGoT_false]
  | teardown =>
    simp only [stepOpT, stepOp, destroyedHookT, destroyedHook, destroyedGoT_false]

theorem runOpsT_false (max : MaxProp) (ops : List Op) : ∀ s : DrvState,
    runOpsT (fun _ => false) max s ops = runOps max s ops := by
  induction ops with
  | nil => intro s; rfl
  | cons op rest ih =>
    intro s
    simp only [runOpsT, runOps, stepOpT_false, ih]

/-! ### C8: the capacity bound in the raising environment -/

/-- History for the C8 counterexample, max = 1: miss A (instance 0 gets
assigned to A's cached entry), then miss B, whose capacity eviction of A
calls A's `$destroy`, which raises — that cycle aborts with both A and B
in the Ledger. -/
def c8ops : List Op :=
  [ .cycle none none (some c4root) (some (c4v "A" "a" "NA" 1)),
    .cycle none none (some c4root) (some (c4v "B" "b" "NB" 2)) ]

/-- The state after the C8 history: keys = [A, B] although max = 1, with
A still live and holding instance 0. -/
def c8mid : DrvState := (runOpsT throwsZero (.num 1) initState c8ops).1

/-- The mounted `_vnode` during the next C8 cycle: its tag equals A's tag,
so the eviction of A is exempted from destruction. -/
def c8cur : VNode := c4v "R" "a" "NR" 9

/-- The next Miss cycle from `c8mid`: insert C, evict `keys[0]` = A —
exempt, hence no destroy signal — and complete normally. -/
def c8out : RenderOut :=
  renderT throwsZero none none (.num 1) c8mid.cache c8mid.keys
    (some c8cur) (scrub (some (c4v "C" "c" "NC" 3))) none

/-- C8 counterexample: with capacity m = 1, a Miss whose eviction raised
leaves keys = [A, B]; the next Miss cycle inserts C and evicts the exempt
A without destruction, so it COMPLETES (raised = false) with the Recency
Ledger holding 2 > m keys — after a completed Miss cycle the Ledger is
neither at most m nor reduced to exactly m by the single overflow
eviction. -/
theorem C8_counterexample :
    c8mid.keys = ["A", "B"] ∧ liveInst c8mid.cache "A" = some 0 ∧
    c8out.missedKey = some "C" ∧ c8out.raised = false ∧
    c8out.keys = ["B", "C"] ∧ ¬ c8out.keys.length ≤ 1 ∧
    (runOpsT throwsZero (.num 1) initState
      (c8ops ++ [.cycle none none (some c8cur) (some (c4v "C" "c" "NC" 3))])).1.keys
      = ["B", "C"] := by
  decide

/-- C8 amended: the capacity invariant is conditional on every delivered
destroy signal returning normally.  Under that condition, for every
positive capacity m, every reachable state's Ledger holds at most m keys
(in particular after every Miss cycle), a further Miss cycle keeps it at
most m, and a Miss from a full Ledger (exactly m keys) is brought back to
exactly m by its single eviction — never below. -/
theorem C8_amended (m : Nat) (throws : Nat → Bool) (hm : 0 < m)
    (hth : ∀ i, throws i = false) (ops : List Op)
    (inc exc : Option Pattern) (uv v0 : Option VNode) :
    (runOpsT throws (.num (m : Int)) initState ops).1.keys.length ≤ m ∧
    (stepOpT throws (.num (m : Int)) (runOpsT throws (.num (m : Int)) initState ops).1
      (.cycle inc exc uv v0)).1.keys.length ≤ m ∧
    (cycleMissedT throws (.num (m : Int)) (runOpsT throws (.num (m : Int)) initState ops).1 inc exc uv v0 = true →
     (runOpsT throws (.num (m : Int)) initState ops).1.keys.length = m →
     (stepOpT throws (.num (m : Int)) (runOpsT throws (.num (m : Int)) initState ops).1
       (.cycle inc exc uv v0)).1.keys.length = m) := by
  have hfun : throws = fun _ => false := funext hth
  subst hfun
  simp only [runOpsT_false, stepOpT_false, cycleMissedT_false]
  have h0 : InvM m initState := by
    refine ⟨⟨List.nodup_nil, ?_⟩, ?_, ?_⟩
    · intro k; simp [initState, cacheGet]
    · intro k w hw; simp [initState, cacheGet] at hw
    · simp [initState]
  have hreach := InvM_runOps m hm ops initState h0
  have hc := InvM_cycle m hm _ inc exc uv v0 hreach
  exact ⟨hreach.2.2, hc.1.2.2, hc.2⟩

/-- C8 amended witnessed: m = 1 in the environment where no destroy
raises; one miss fills the Ledger; a second miss with a new key overflows
and is brought back to exactly 1. -/
theorem C8_amended_witness :
    (0 < 1 ∧ ∀ i : Nat, (fun _ : Nat => false) i = false) ∧
    ((runOpsT (fun _ => false) (.num (1 : Int)) initState
        [.cycle none none (some c4root) (some (c4v "A" "a" "NA" 1))]).1.keys.length ≤ 1 ∧
     (stepOpT (fun _ => false) (.num (1 : Int)) (runOpsT (fun _ => false) (.num (1 : Int)) initState
        [.cycle none none (some c4root) (some (c4v "A" "a" "NA" 1))]).1
        (.cycle none none (some c4root) (some (c4v "B" "b" "NB" 2)))).1.keys.length ≤ 1 ∧
     (cycleMissedT (fun _ => false) (.num (1 : Int)) (runOpsT (fun _ => false) (.num (1 : Int)) initState
        [.cycle none none (some c4root) (some (c4v "A" "a" "NA" 1))]).1
        none none (some c4root) (some (c4v "B" "b" "NB" 2)) = true →
      (runOpsT (fun _ => false) (.num (1 : Int)) initState
        [.cycle none none (some c4root) (some (c4v "A" "a" "NA" 1))]).1.keys.length = 1 →
      (stepOpT (fun _ => false) (.num (1 : Int)) (runOpsT (fun _ => false) (.num (1 : Int)) initState
        [.cycle none none (some c4root) (some (c4v "A" "a" "NA" 1))]).1
        (.cycle none none (some c4root) (some (c4v "B" "b" "NB" 2)))).1.keys.length = 1)) :=
  ⟨⟨by decide, fun _ => rfl⟩,
    C8_amended 1 (fun _ => false) (by decide) (fun _ => rfl)
      [.cycle none none (some c4root) (some (c4v "A" "a" "NA" 1))]
      none none (some c4root) (some (c4v "B" "b" "NB" 2))⟩

/-! ### C9: destroy-signal multiplicity in the raising environment -/

/-- History for the C9 counterexample, max = 1: miss A (instance 0), miss
B whose eviction of A raises from A's `$destroy` (first signal; the raise
leaves A cached), then teardown, which calls A's `$destroy` again (second
signal to the same instance). -/
def c9ops : List Op :=
  [ .cycle none none (some c4root) (some (c4v "A" "a" "NA" 1)),
    .cycle none none (some c4root) (some (c4v "B" "b" "NB" 2)),
    .teardown ]

/-- The full C9 run: final state plus every destroy signal sent. -/
def c9run : DrvState × List Nat :=
  runOpsT throwsZero (.num 1) initState c9ops

/-- C9 counterexample: instance 0 (held by A) receives the destroy signal
TWICE — once from the capacity eviction whose raise leaves A cached, and
once more from the teardown — so the accumulated signal list is [0, 0],
repeating an instance, and the unconditional at-most-once claim fails. -/
theorem C9_counterexample :
    c9run.2 = [0, 0] ∧ ¬ c9run.2.Nodup ∧
    liveInst (runOpsT throwsZero (.num 1) initState (c9ops.take 2)).1.cache "A"
      = some 0 := by
  decide

/-- C9 amended: when every delivered destroy signal returns normally, the
destroy signal is delivered to any given held instance at most once across
capacity evictions, filter-driven prunes and whole-cache teardown
combined — the accumulated list of signals never repeats an instance. -/
theorem C9_amended (throws : Nat → Bool) (hth : ∀ i, throws i = false)
    (max : MaxProp) (ops : List Op) :
    ((runOpsT throws max initState ops).2).Nodup := by
  have hfun : throws = fun _ => false := funext hth
  subst hfun
  rw [runOpsT_false]
  have h0 : EntryInv initState.cache initState.nextId [] := by
    refine ⟨List.nodup_nil, ?_, ?_, ?_⟩ <;> simp [initState, liveInst, cacheGet]
  have h := EntryInv_runOps max ops initState [] h0
  simpa using h.1

/-- C9 amended witnessed at the no-raise environment on the five-cycle LRU
scenario: the accumulated destroy signals have no repeated instance. -/
theorem C9_amended_witness :
    (∀ i : Nat, (fun _ : Nat => false) i = false) ∧
    ((runOpsT (fun _ => false) (.num 3) initState c4ops).2).Nodup :=
  ⟨fun _ => rfl, C9_amended (fun _ => false) (fun _ => rfl) (.num 3) c4ops⟩

/-! ### C2: filter-driven pruning and the current-vnode exemption -/

theorem pruneCacheEntry_exempt {c : Cache} {key : String} {v : VNode}
    (ks : List String) (cur : Option VNode)
    (hv : cacheGet c key = some v) (hex : exemptFor cur v = true) :
    pruneCacheEntryT (fun _ => false) c key ks cur =
      (cacheSet c key none, ks.erase key, [], false) := by
  unfold pruneCacheEntryT removeFirst
  rw [hv]
  dsimp only
  rw [hex]
  rw [if_pos rfl]

theorem pruneCacheEntry_destroy {c : Cache} {key : String} {v : VNode} {i : Nat}
    (ks : List String) (cur : Option VNode)
    (hv : cacheGet c key = some v) (hex : exemptFor cur v = false)
    (hi : v.componentInstance = some i) :
    pruneCacheEntryT (fun _ => false) c key ks cur =
      (cacheSet c key none, ks.erase key, [i], false) := by
  unfold pruneCacheEntryT removeFirst
  rw [hv]
  dsimp only
  rw [hex]
  rw [if_neg (by simp)]
  rw [hi]
  dsimp only
  rw [if_neg (by simp)]

theorem pruneCacheGo_untouched (f : String → Bool) (cur : Option VNode) :
    ∀ (todo : List String) (c : Cache) (ks : List String) (acc : List Nat)
      (k : String), k ∉ todo →
      cacheGet (pruneCacheGo f cur todo c ks acc).1 k = cacheGet c k ∧
      (k ∈ (pruneCacheGo f cur todo c ks acc).2.1 ↔ k ∈ ks) := by
  intro todo
  induction todo with
  | nil => intro c ks acc k hk; exact ⟨rfl, Iff.rfl⟩
  | cons k0 rest ih =>
    intro c ks acc k hk
    have hk0 : k ≠ k0 := fun e => hk (e ▸ List.mem_cons_self k0 rest)
    have hkrest : k ∉ rest := fun e => hk (List.mem_cons_of_mem k0 e)
    simp only [pruneCacheGo]
    cases hget : cacheGet c k0 with
    | none => dsimp only; exact ih c ks acc k hkrest
    | some node =>
      dsimp only
      by_cases hpt : pruneTargets f node = true
      · rw [if_pos hpt]
        rcases he : pruneCacheEntryT (fun _ => false) c k0 ks cur with ⟨c2, ks2, d, r⟩
        rcases pruneCacheEntryT_shape (fun _ => false) c k0 ks cur with ⟨d0, hd⟩ | ⟨d0, hd⟩ <;>
          rw [he] at hd <;>
          injection hd with e1 hd <;>
          injection hd with e2 hd <;>
          injection hd with e3 e4
        · cases r with
          | true => cases e4
          | false =>
            dsimp only
            obtain ⟨ih1, ih2⟩ := ih c2 ks2 (acc ++ d) k hkrest
            constructor
            · rw [ih1, e1, cacheGet_cacheSet, if_neg hk0]
            · rw [ih2, e2]
              exact List.mem_erase_of_ne hk0
        · cases r with
          | true =>
            dsimp only
            exact ⟨by rw [e1], by rw [e2]⟩
          | false =>
            dsimp only
            obtain ⟨ih1, ih2⟩ := ih c2 ks2 (acc ++ d) k hkrest
            constructor
            · rw [ih1, e1]
            · rw [ih2, e2]
      · rw [if_neg hpt]
        exact ih c ks acc k hkrest

theorem pruneCacheGo_acc_prefix (f : String → Bool) (cur : Option VNode) :
    ∀ (todo : List String) (c : Cache) (ks : List String) (acc : List Nat),
      ∃ e, (pruneCacheGo f cur todo c ks acc).2.2.1 = acc ++ e := by
  intro todo
  induction todo with
  | nil => intro c ks acc; exact ⟨[], by simp [pruneCacheGo]⟩
  | cons k0 rest ih =>
    intro c ks acc
    simp only [pruneCacheGo]
    cases hget : cacheGet c k0 with
    | none => dsimp only; exact ih c ks acc
    | some node =>
      dsimp only
      by_cases hpt : pruneTargets f node = true
      · rw [if_pos hpt]
        rcases he : pruneCacheEntryT (fun _ => false) c k0 ks cur with ⟨c2, ks2, d, r⟩
        cases r with
        | true => dsimp only; exact ⟨d, rfl⟩
        | false =>
          dsimp only
          obtain ⟨e, hee⟩ := ih c2 ks2 (acc ++ d)
          exact ⟨d ++ e, by rw [hee, List.append_assoc]⟩
      · rw [if_neg hpt]
        exact ih c ks acc

theorem pruneCacheGo_split (f : String → Bool) (cur : Option VNode) :
    ∀ (t1 t2 : List String) (c : Cache) (ks : List String) (acc : List Nat)
      (c1 : Cache) (ks1 : List String) (d1 : List Nat),
      pruneCacheGo f cur t1 c ks acc = (c1, ks1, d1, false) →
      pruneCacheGo f cur (t1 ++ t2) c ks acc = pruneCacheGo f cur t2 c1 ks1 d1 := by
  intro t1
  induction t1 with
  | nil =>
    intro t2 c ks acc c1 ks1 d1 h
    simp only [pruneCacheGo] at h
    injection h with e1 h
    injection h with e2 h
    injection h with e3 e4
    rw [List.nil_append, e1, e2, e3]
  | cons k0 rest ih =>
    intro t2 c ks acc c1 ks1 d1 h
    rw [List.cons_append]
    simp only [pruneCacheGo] at h ⊢
    cases hget : cacheGet c k0 with
    | none =>
      rw [hget] at h
      dsimp only at h ⊢
      exact ih t2 c ks acc c1 ks1 d1 h
    | some node =>
      rw [hget] at h
      dsimp only at h ⊢
      by_cases hpt : pruneTargets f node = true
      · rw [if_pos hpt] at h ⊢
        rcases he : pruneCacheEntryT (fun _ => false) c k0 ks cur with ⟨c2, ks2, d, r⟩
        rw [he] at h
        cases r with
        | true =>
          dsimp only at h
          injection h with e1 h
          injection h with e2 h
          injection h with e3 e4
          cases e4
        | false =>
          dsimp only at h ⊢
          exact ih t2 c2 ks2 (acc ++ d) c1 ks1 d1 h
      · rw [if_neg hpt] at h ⊢
        exact ih t2 c ks acc c1 ks1 d1 h

theorem pruneCacheGo_noraise_shrink (f : String → Bool) (cur : Option VNode) :
    ∀ (todo : List String) (c : Cache) (ks : List String) (acc : List Nat),
      (∀ k w, cacheGet c k = some w → w.componentInstance.isSome = true) →
      (pruneCacheGo f cur todo c ks acc).2.2.2 = false ∧
      (∀ k, cacheGet (pruneCacheGo f cur todo c ks acc).1 k = cacheGet c k ∨
        cacheGet (pruneCacheGo f cur todo c ks acc).1 k = none) := by
  intro todo
  induction todo with
  | nil => intro c ks acc hsome; exact ⟨rfl, fun k => Or.inl rfl⟩
  | cons k0 rest ih =>
    intro c ks acc hsome
    simp only [pruneCacheGo]
    cases hget : cacheGet c k0 with
    | none => dsimp only; exact ih c ks acc hsome
    | some node =>
      dsimp only
      by_cases hpt : pruneTargets f node = true
      · rw [if_pos hpt]
        have hnr := @pruneCacheEntry_noraise c k0 ks cur
          (fun w hw => by
            rw [hget] at hw
            injection hw with hw
            exact hw ▸ hsome k0 node hget)
        rw [pruneCacheEntry] at hnr
        rcases he : pruneCacheEntryT (fun _ => false) c k0 ks cur with ⟨c2, ks2, d, r⟩
        rw [he] at hnr
        dsimp only at hnr
        rcases pruneCacheEntryT_shape (fun _ => false) c k0 ks cur with ⟨d0, hd⟩ | ⟨d0, hd⟩ <;>
          rw [he] at hd <;>
          injection hd with e1 hd <;>
          injection hd with e2 hd <;>
          injection hd with e3 e4
        · cases r with
          | true => cases hnr
          | false =>
            dsimp only
            obtain ⟨ihr, ihs⟩ := ih c2 ks2 (acc ++ d)
              (by rw [e1]; exact allSome_setNone k0 hsome)
            refine ⟨ihr, fun k => ?_⟩
            rcases ihs k with hs | hs
            · rw [hs, e1, cacheGet_cacheSet]
              by_cases ek : k = k0
              · rw [if_pos ek]; exact Or.inr rfl
              · rw [if_neg ek]; exact Or.inl rfl
            · exact Or.inr hs
        · cases r with
          | true => cases hnr
          | false =>
            dsimp only
            obtain ⟨ihr, ihs⟩ := ih c2 ks2 (acc ++ d) (by rw [e1]; exact hsome)
            refine ⟨ihr, fun k => ?_⟩
            rcases ihs k with hs | hs
            · rw [hs, e1]; exact Or.inl rfl
            · exact Or.inr hs
      · rw [if_neg hpt]
        exact ih c ks acc hsome

theorem pruneCacheGo_destroys_from (f : String → Bool) (cur : Option VNode) :
    ∀ (todo : List String) (c : Cache) (ks : List String) (acc : List Nat),
      (∀ k w, cacheGet c k = some w → w.componentInstance.isSome = true) →
      ∀ i, i ∈ (pruneCacheGo f cur todo c ks acc).2.2.1 →
        i ∈ acc ∨ ∃ k w, k ∈ todo ∧ cacheGet c k = some w ∧
          w.componentInstance = some i ∧ pruneTargets f w = true ∧
          exemptFor cur w = false := by
  intro todo
  induction todo with
  | nil =>
    intro c ks acc hsome i hi
    exact Or.inl (by simpa [pruneCacheGo] using hi)
  | cons k0 rest ih =>
    intro c ks acc hsome i hi
    simp only [pruneCacheGo] at hi
    cases hget : cacheGet c k0 with
    | none =>
      rw [hget] at hi
      dsimp only at hi
      rcases ih c ks acc hsome i hi with h | ⟨k, w, hk, hw, hwi, hx, hy⟩
      · exact Or.inl h
      · exact Or.inr ⟨k, w, List.mem_cons_of_mem k0 hk, hw, hwi, hx, hy⟩
    | some node =>
      rw [hget] at hi
      dsimp only at hi
      by_cases hpt : pruneTargets f node = true
      · rw [if_pos hpt] at hi
        have hins : node.componentInstance.isSome = true := hsome k0 node hget
        obtain ⟨i0, hi0⟩ := Option.isSome_iff_exists.mp hins
        cases hex : exemptFor cur node with
        | true =>
          rw [pruneCacheEntry_exempt ks cur hget hex] at hi
          dsimp only at hi
          rcases ih (cacheSet c k0 none) (ks.erase k0) (acc ++ [])
              (allSome_setNone k0 hsome) i hi with h | ⟨k, w, hk, hw, hwi, hx, hy⟩
          · exact Or.inl (by simpa using h)
          · rw [cacheGet_cacheSet] at hw
            by_cases ek : k = k0
            · rw [if_pos ek] at hw; cases hw
            · rw [if_neg ek] at hw
              exact Or.inr ⟨k, w, List.mem_cons_of_mem k0 hk, hw, hwi, hx, hy⟩
        | false =>
          rw [pruneCacheEntry_destroy ks cur hget hex hi0] at hi
          dsimp only at hi
          rcases ih (cacheSet c k0 none) (ks.erase k0) (acc ++ [i0])
              (allSome_setNone k0 hsome) i hi with h | ⟨k, w, hk, hw, hwi, hx, hy⟩
          · rcases List.mem_append.mp h with h | h
            · exact Or.inl h
            · simp at h
              subst h
              exact Or.inr ⟨k0, node, List.mem_cons_self k0 rest, hget, hi0, hpt, hex⟩
          · rw [cacheGet_cacheSet] at hw
            by_cases ek : k = k0
            · rw [if_pos ek] at hw; cases hw
            · rw [if_neg ek] at hw
              exact Or.inr ⟨k, w, List.mem_cons_of_mem k0 hk, hw, hwi, hx, hy⟩
      · rw [if_neg hpt] at hi
        rcases ih c ks acc hsome i hi with h | ⟨k, w, hk, hw, hwi, hx, hy⟩
        · exact Or.inl h
        · exact Or.inr ⟨k, w, List.mem_cons_of_mem k0 hk, hw, hwi, hx, hy⟩

/-- A cached entry whose tag matches the currently rendering vnode and
whose name "X" can fail a changed filter (C2). -/
def c2v1 : VNode :=
  { key := some "k1", tag := some "t",
    componentOptions := some ⟨⟨1, ⟨some "X"⟩⟩, some "t"⟩,
    componentInstance := some 10, data := ⟨true⟩ }

/-- A second cached entry, not matching the current tag, named "Y" (C2). -/
def c2v2 : VNode :=
  { key := some "k2", tag := some "u",
    componentOptions := some ⟨⟨2, ⟨some "Y"⟩⟩, some "u"⟩,
    componentInstance := some 11, data := ⟨true⟩ }

/-- The currently rendering vnode for C2, sharing c2v1's tag. -/
def c2cur : VNode :=
  { key := none, tag := some "t", componentOptions := none,
    componentInstance := none, data := ⟨false⟩ }

/-- C2 counterexample: the claim says an entry matching the currently
rendering reference is left untouched — in particular it remains present
in both the Entry Store and the Recency Ledger.  With exclude changing to
cover both names, the exempt entry k1 is indeed not destroyed (only
instance 11 receives a signal), but it is still removed from both
structures: its slot is nulled and its key leaves the keys array. -/
theorem C2_counterexample :
    exemptFor (some c2cur) c2v1 = true ∧
    pruneTargets (fun n => !«matches» (.arr ["X", "Y"]) n) c2v1 = true ∧
    pruneCache [("k1", some c2v1), ("k2", some c2v2)] ["k1", "k2"] (some c2cur)
      (fun n => !«matches» (.arr ["X", "Y"]) n) =
      ([("k1", none), ("k2", none)], [], [11], false) ∧
    cacheGet [("k1", none), ("k2", none)] "k1" = none ∧
    "k1" ∉ ([] : List String) := by
  decide

/-- C2 amended: on a filter-change prune over a well-formed cache (no
duplicate keys, live entries carrying pairwise distinct instances), an
entry whose name fails the predicate is always removed from both the
Entry Store and the Recency Ledger; its held instance is destroyed
exactly when it is NOT exempted by the currently-rendering tag comparison
— an exempt failing entry is removed without destruction, not left
untouched.  Entries whose names pass the predicate (or have no truthy
name) keep their slot and their Ledger membership. -/
theorem C2_amended (cache : Cache) (ks : List String) (cur : Option VNode)
    (f : String → Bool)
    (hN : (cache.map Prod.fst).Nodup)
    (hK : ks.Nodup)
    (hsome : ∀ k w, cacheGet cache k = some w → w.componentInstance.isSome = true)
    (hdist : ∀ k1 k2 w1 w2 i, cacheGet cache k1 = some w1 → cacheGet cache k2 = some w2 →
      w1.componentInstance = some i → w2.componentInstance = some i → k1 = k2)
    (k : String) (v : VNode) (hv : cacheGet cache k = some v) :
    (pruneCache cache ks cur f).2.2.2 = false ∧
    (pruneTargets f v = true →
      cacheGet (pruneCache cache ks cur f).1 k = none ∧
      k ∉ (pruneCache cache ks cur f).2.1 ∧
      (exemptFor cur v = true →
        ∀ i, v.componentInstance = some i → i ∉ (pruneCache cache ks cur f).2.2.1) ∧
      (exemptFor cur v = false →
        ∀ i, v.componentInstance = some i → i ∈ (pruneCache cache ks cur f).2.2.1)) ∧
    (pruneTargets f v = false →
      cacheGet (pruneCache cache ks cur f).1 k = some v ∧
      (k ∈ (pruneCache cache ks cur f).2.1 ↔ k ∈ ks)) := by
  have hmem : k ∈ cache.map Prod.fst := mem_map_fst_of_cacheGet hv
  obtain ⟨t1, t2, htodo⟩ := List.append_of_mem hmem
  have hN2 := hN
  rw [htodo] at hN2
  obtain ⟨hnd1, hnd2, hdisj⟩ := List.nodup_append.mp hN2
  have hkt1 : k ∉ t1 := fun h1 => hdisj h1 (List.mem_cons_self k t2)
  have hkt2 : k ∉ t2 := (List.nodup_cons.mp hnd2).1
  rcases h1 : pruneCacheGo f cur t1 cache ks [] with ⟨c1, ks1, d1, r1⟩
  obtain ⟨hr1, hs1⟩ := pruneCacheGo_noraise_shrink f cur t1 cache ks [] hsome
  rw [h1] at hr1 hs1
  dsimp only at hr1 hs1
  subst hr1
  obtain ⟨hu1, hu2⟩ := pruneCacheGo_untouched f cur t1 cache ks [] k hkt1
  rw [h1] at hu1 hu2
  dsimp only at hu1 hu2
  have hvc1 : cacheGet c1 k = some v := by rw [hu1, hv]
  have hsome1 : ∀ k2 w, cacheGet c1 k2 = some w → w.componentInstance.isSome = true := by
    intro k2 w hw
    rcases hs1 k2 with hs | hs
    · rw [hs] at hw; exact hsome k2 w hw
    · rw [hs] at hw; cases hw
  have hks1sub := keys_sublist_pruneCacheGo f cur t1 cache ks []
  rw [h1] at hks1sub
  dsimp only at hks1sub
  have hks1nd : ks1.Nodup := hks1sub.nodup hK
  have hwhole : pruneCache cache ks cur f = pruneCacheGo f cur (k :: t2) c1 ks1 d1 := by
    unfold pruneCache
    rw [htodo]
    exact pruneCacheGo_split f cur t1 (k :: t2) cache ks [] c1 ks1 d1 h1
  cases hptv : pruneTargets f v with
  | false =>
    have hstep : pruneCache cache ks cur f = pruneCacheGo f cur t2 c1 ks1 d1 := by
      rw [hwhole]
      simp only [pruneCacheGo]
      rw [hvc1]
      dsimp only
      rw [if_neg (by rw [hptv]; simp)]
    obtain ⟨hw1, hw2⟩ := pruneCacheGo_untouched f cur t2 c1 ks1 d1 k hkt2
    refine ⟨?_, ?_, ?_⟩
    · rw [hstep]
      exact (pruneCacheGo_noraise_shrink f cur t2 c1 ks1 d1 hsome1).1
    · intro hcontra
      simp [hptv] at hcontra
    · intro _
      constructor
      · rw [hstep, hw1, hvc1]
      · rw [hstep, hw2, hu2]
  | true =>
    cases hexv : exemptFor cur v with
    | true =>
      have hstep : pruneCache cache ks cur f =
          pruneCacheGo f cur t2 (cacheSet c1 k none) (ks1.erase k) (d1 ++ []) := by
        rw [hwhole]
        simp only [pruneCacheGo]
        rw [hvc1]
        dsimp only
        rw [if_pos hptv]
        rw [pruneCacheEntry_exempt ks1 cur hvc1 hexv]
      obtain ⟨hw1, hw2⟩ := pruneCacheGo_untouched f cur t2 (cacheSet c1 k none)
        (ks1.erase k) (d1 ++ []) k hkt2
      have hsome2 := allSome_setNone k hsome1
      refine ⟨?_, ?_, ?_⟩
      · rw [hstep]
        exact (pruneCacheGo_noraise_shrink f cur t2 _ _ _ hsome2).1
      · intro _
        refine ⟨?_, ?_, ?_, ?_⟩
        · rw [hstep, hw1, cacheGet_cacheSet, if_pos rfl]
        · rw [hstep]
          intro habs
          exact (hks1nd.mem_erase_iff.mp (hw2.mp habs)).1 rfl
        · intro _ i hvi habs
          have habs2 : i ∈ (pruneCacheGo f cur (cache.map Prod.fst) cache ks []).2.2.1 := habs
          rcases pruneCacheGo_destroys_from f cur (cache.map Prod.fst) cache ks []
              hsome i habs2 with h | ⟨k9, w9, hk9, hw9, hwi9, hx9, hy9⟩
          · cases h
          · have hkk : k9 = k := hdist k9 k w9 v i hw9 hv hwi9 hvi
            rw [hkk, hv] at hw9
            injection hw9 with hw9
            rw [hw9] at hexv
            rw [hy9] at hexv
            cases hexv
        · intro hcontra
          simp [hexv] at hcontra
      · intro hcontra
        simp [hptv] at hcontra
    | false =>
      obtain ⟨i0, hi0⟩ := Option.isSome_iff_exists.mp (hsome1 k v hvc1)
      have hstep : pruneCache cache ks cur f =
          pruneCacheGo f cur t2 (cacheSet c1 k none) (ks1.erase k) (d1 ++ [i0]) := by
        rw [hwhole]
        simp only [pruneCacheGo]
        rw [hvc1]
        dsimp only
        rw [if_pos hptv]
        rw [pruneCacheEntry_destroy ks1 cur hvc1 hexv hi0]
      obtain ⟨hw1, hw2⟩ := pruneCacheGo_untouched f cur t2 (cacheSet c1 k none)
        (ks1.erase k) (d1 ++ [i0]) k hkt2
      have hsome2 := allSome_setNone k hsome1
      refine ⟨?_, ?_, ?_⟩
      · rw [hstep]
        exact (pruneCacheGo_noraise_shrink f cur t2 _ _ _ hsome2).1
      · intro _
        refine ⟨?_, ?_, ?_, ?_⟩
        · rw [hstep, hw1, cacheGet_cacheSet, if_pos rfl]
        · rw [hstep]
          intro habs
          exact (hks1nd.mem_erase_iff.mp (hw2.mp habs)).1 rfl
        · intro hcontra
          simp [hexv] at hcontra
        · intro _ i hvi
          have hii : i = i0 := Option.some.inj (hvi.symm.trans hi0)
          obtain ⟨e, hee⟩ := pruneCacheGo_acc_prefix f cur t2 (cacheSet c1 k none)
            (ks1.erase k) (d1 ++ [i0])
          rw [hstep, hee, hii]
          simp
      · intro hcontra
        simp [hptv] at hcontra

/-- C2 amended, witnessed on the concrete two-entry cache: the non-exempt
failing entry k2 is destroyed and removed; the exempt failing entry k1 is
removed but its instance 10 is never signalled. -/
theorem C2_amended_witness :
    pruneTargets (fun n => !«matches» (.arr ["X", "Y"]) n) c2v2 = true ∧
    exemptFor (some c2cur) c2v2 = false ∧
    cacheGet (pruneCache [("k1", some c2v1), ("k2", some c2v2)] ["k1", "k2"]
      (some c2cur) (fun n => !«matches» (.arr ["X", "Y"]) n)).1 "k2" = none ∧
    11 ∈ (pruneCache [("k1", some c2v1), ("k2", some c2v2)] ["k1", "k2"]
      (some c2cur) (fun n => !«matches» (.arr ["X", "Y"]) n)).2.2.1 ∧
    10 ∉ (pruneCache [("k1", some c2v1), ("k2", some c2v2)] ["k1", "k2"]
      (some c2cur) (fun n => !«matches» (.arr ["X", "Y"]) n)).2.2.1 ∧
    cacheGet (pruneCache [("k1", some c2v1), ("k2", some c2v2)] ["k1", "k2"]
      (some c2cur) (fun n => !«matches» (.arr ["X", "Y"]) n)).1 "k1" = none := by
  have hinv : ∀ k w, cacheGet [("k1", some c2v1), ("k2", some c2v2)] k = some w →
      (k = "k1" ∧ w = c2v1) ∨ (k = "k2" ∧ w = c2v2) := by
    intro k w hw
    simp only [cacheGet] at hw
    by_cases e1 : "k1" = k
    · rw [if_pos e1] at hw
      injection hw with hw
      exact Or.inl ⟨e1.symm, hw.symm⟩
    · rw [if_neg e1] at hw
      by_cases e2 : "k2" = k
      · rw [if_pos e2] at hw
        injection hw with hw
        exact Or.inr ⟨e2.symm, hw.symm⟩
      · rw [if_neg e2] at hw
        cases hw
  have hsomeW : ∀ k w, cacheGet [("k1", some c2v1), ("k2", some c2v2)] k = some w →
      w.componentInstance.isSome = true := by
    intro k w hw
    rcases hinv k w hw with ⟨_, hw2⟩ | ⟨_, hw2⟩ <;> rw [hw2] <;> rfl
  have hdistW : ∀ k1 k2 w1 w2 i,
      cacheGet [("k1", some c2v1), ("k2", some c2v2)] k1 = some w1 →
      cacheGet [("k1", some c2v1), ("k2", some c2v2)] k2 = some w2 →
      w1.componentInstance = some i → w2.componentInstance = some i → k1 = k2 := by
    intro k1 k2 w1 w2 i hw1 hw2 hi1 hi2
    rcases hinv k1 w1 hw1 with ⟨hk1, hww1⟩ | ⟨hk1, hww1⟩ <;>
      rcases hinv k2 w2 hw2 with ⟨hk2, hww2⟩ | ⟨hk2, hww2⟩ <;>
      rw [hk1, hk2] <;>
      rw [hww1] at hi1 <;> rw [hww2] at hi2 <;>
      simp [c2v1, c2v2] at hi1 hi2 <;> omega
  have h2 := C2_amended [("k1", some c2v1), ("k2", some c2v2)] ["k1", "k2"]
    (some c2cur) (fun n => !«matches» (.arr ["X", "Y"]) n)
    (by decide) (by decide) hsomeW hdistW "k2" c2v2 (by decide)
  have h1 := C2_amended [("k1", some c2v1), ("k2", some c2v2)] ["k1", "k2"]
    (some c2cur) (fun n => !«matches» (.arr ["X", "Y"]) n)
    (by decide) (by decide) hsomeW hdistW "k1" c2v1 (by decide)
  refine ⟨by decide, by decide, ?_, ?_, ?_, ?_⟩
  · exact (h2.2.1 (by decide)).1
  · exact (h2.2.1 (by decide)).2.2.2 (by decide) 11 (by decide)
  · exact (h1.2.1 (by decide)).2.2.1 (by decide) 10 (by decide)
  · exact (h1.2.1 (by decide)).1

end KeepAlive
